import Mathlib

/-!
Shallow embedding of the argocd-lint core (configuration resolution, waiver and
baseline filtering, the Rego plugin adapter, and the runner pipeline), together
with theorems settling the specification claims.

Modelling conventions:
* Go strings are Lean `String`s (byte-level UTF-8 details are identified with
  their character sequences); `strings.TrimSpace` / `strings.ToLower` are
  `String.trim` / `String.toLower`.
* Go `time.Time` values are abstract instants modelled as `Int`; the stdlib
  parsers `time.Parse(RFC3339/2006-01-02, _)` and the formatter
  `Format(RFC3339)` are abstract parameters (`String → Option Int`,
  `Int → String`).
* Fallible Go functions returning `(T, error)` become `Except String T`.
* Go maps are association lists with overwrite-on-insert and key lookup.
-/

namespace ArgocdLint

/-- Models Go `strings.TrimSpace`: strips leading and trailing whitespace
(Unicode in Go; the whitespace in play is ASCII). -/
def trimSpace (s : String) : String :=
  ⟨((s.data.dropWhile Char.isWhitespace).reverse.dropWhile Char.isWhitespace).reverse⟩

/-- Models Go `strings.ToLower`, character by character. -/
def lowerStr (s : String) : String := ⟨s.data.map Char.toLower⟩

/-! ### Go `path/filepath.Match` (unix), from Go's `path/filepath/match.go`.

The pattern is processed chunk by chunk exactly as in Go: `scanChunk` strips
leading `*`s and cuts the pattern at the next top-level `*`; `matchChunk`
matches one chunk against the head of the name, parsing character classes
inline (Go's `matchChunk` + `getEsc`, fused into the structurally recursive
`chunkLoop`, whose `cls` state is Go's in-class range-parsing loop);
`matchLoop` is Go's `Match` main loop, with the star backtracking loop
(`starLoop`) and the trailing syntactic validation (`validateRest`).
`.error ()` is Go's `ErrBadPattern`. -/

/-- State of `chunkLoop`: either in Go `matchChunk`'s main `switch`, or inside
the character-class range parsing with the decoded rune `r`, the negation
flag, the accumulated `match` flag and the range count `nrange`. -/
inductive ClassState where
  | norm : ClassState
  | cls (r : Char) (negated : Bool) (cmatched : Bool) (nrange : Nat) : ClassState
deriving Repr, DecidableEq

/-- Go `getEsc`: reads a (possibly escaped) range character from the front of
a chunk; errors when the chunk is empty, starts with `-` or `]`, ends right
after an escape, or would leave nothing for the closing `]`. -/
def getEsc : List Char → Except Unit (Char × List Char)
  | [] => .error ()
  | c :: rest =>
    if c = '-' ∨ c = ']' then .error ()
    else if c = '\\' then
      match rest with
      | [] => .error ()
      | r :: rest1 => if rest1 = [] then .error () else .ok (r, rest1)
    else if rest = [] then .error () else .ok (c, rest)

theorem getEsc_length : ∀ {chunk : List Char} {r : Char} {rest : List Char},
    getEsc chunk = .ok (r, rest) → rest.length < chunk.length := by
  intro chunk r rest h
  match chunk with
  | [] => simp [getEsc] at h
  | c :: cs =>
    simp only [getEsc] at h
    split at h
    · simp at h
    · split at h
      · match cs with
        | [] => simp at h
        | c2 :: cs2 =>
          simp only at h
          split at h
          · simp at h
          · simp only [Except.ok.injEq, Prod.mk.injEq] at h
            obtain ⟨_, rfl⟩ := h
            simp only [List.length_cons]
            omega
      · split at h
        · simp at h
        · simp only [Except.ok.injEq, Prod.mk.injEq] at h
          obtain ⟨_, rfl⟩ := h
          simp only [List.length_cons]
          omega

/-- The `hi` side of one range: Go's `if chunk[0] == '-' { hi, chunk, err =
getEsc(chunk[1:]) }` (otherwise `hi = lo` and the chunk is unchanged). -/
def getHi (lo : Char) (chunk1 : List Char) : Except Unit (Char × List Char) :=
  match chunk1 with
  | [] => .ok (lo, [])
  | c :: tl => if c = '-' then getEsc tl else .ok (lo, c :: tl)

theorem getHi_length : ∀ {lo : Char} {chunk1 : List Char} {hi : Char} {rest : List Char},
    getHi lo chunk1 = .ok (hi, rest) → rest.length ≤ chunk1.length := by
  intro lo chunk1 hi rest h
  match chunk1 with
  | [] =>
    simp only [getHi, Except.ok.injEq, Prod.mk.injEq] at h
    obtain ⟨_, rfl⟩ := h
    exact Nat.le_refl _
  | c :: cs =>
    by_cases hc : c = '-'
    · simp only [getHi, hc, if_true] at h
      have := getEsc_length h
      simp only [List.length_cons]
      omega
    · simp only [getHi, hc, if_false, Except.ok.injEq, Prod.mk.injEq] at h
      obtain ⟨_, rfl⟩ := h
      exact Nat.le_refl _

/-- Go `matchChunk` (the class-parsing loop of its `[` case is the `.cls`
state; one `.cls` step parses one range via `getEsc`): matches `chunk`
against a prefix of `s`, returning the rest of `s` and whether the chunk
matched; `.error ()` is `ErrBadPattern`.  The `failed` flag mirrors Go's
local of the same name (parsing continues after a mismatch so that pattern
errors are still detected). -/
def chunkLoop : List Char → ClassState → List Char → Bool → Except Unit (List Char × Bool)
  | [], .norm, s, failed => if failed then .ok ([], false) else .ok (s, true)
  | [], .cls _ _ _ _, _, _ => .error ()
  | c :: rest, .cls r negated cmatched nrange, s, failed =>
    if c = ']' ∧ nrange > 0 then chunkLoop rest .norm s (failed || (cmatched == negated))
    else
      match hlo : getEsc (c :: rest) with
      | .error _ => .error ()
      | .ok (lo, chunk1) =>
        match hhi : getHi lo chunk1 with
        | .error _ => .error ()
        | .ok (hi, chunk2) =>
          have h1 : chunk1.length < (c :: rest).length := getEsc_length hlo
          have h2 : chunk2.length ≤ chunk1.length := getHi_length hhi
          chunkLoop chunk2 (.cls r negated (cmatched || decide (lo ≤ r ∧ r ≤ hi)) (nrange + 1)) s failed
  | '[' :: '^' :: rest, .norm, s, failed0 =>
    let failed := failed0 || s.isEmpty
    let r := if failed then Char.ofNat 0 else s.headD (Char.ofNat 0)
    let s1 := if failed then s else s.tail
    chunkLoop rest (.cls r true false 0) s1 failed
  | '[' :: rest, .norm, s, failed0 =>
    let failed := failed0 || s.isEmpty
    let r := if failed then Char.ofNat 0 else s.headD (Char.ofNat 0)
    let s1 := if failed then s else s.tail
    chunkLoop rest (.cls r false false 0) s1 failed
  | '?' :: rest, .norm, s, failed0 =>
    let failed := failed0 || s.isEmpty
    if failed then chunkLoop rest .norm s failed
    else
      match s with
      | [] => chunkLoop rest .norm [] true
      | sh :: st => chunkLoop rest .norm st (decide (sh = '/'))
  | '\\' :: [], .norm, _, _ => .error ()
  | '\\' :: c2 :: rest2, .norm, s, failed0 =>
    let failed := failed0 || s.isEmpty
    if failed then chunkLoop rest2 .norm s failed
    else
      match s with
      | [] => chunkLoop rest2 .norm [] true
      | sh :: st => chunkLoop rest2 .norm st (decide (¬ c2 = sh))
  | c :: rest, .norm, s, failed0 =>
    let failed := failed0 || s.isEmpty
    if failed then chunkLoop rest .norm s failed
    else
      match s with
      | [] => chunkLoop rest .norm [] true
      | sh :: st => chunkLoop rest .norm st (decide (¬ c = sh))
termination_by chunk _ _ _ => chunk.length
decreasing_by all_goals (simp only [List.length_cons] at *; omega)

/-- Go `matchChunk(chunk, s)` (local `failed` starts out false). -/
def matchChunk (chunk s : List Char) : Except Unit (List Char × Bool) :=
  chunkLoop chunk .norm s false

/-- The leading-star part of Go `scanChunk`: strips leading `*`s, reporting
whether any star was seen. -/
def dropStars : List Char → Bool × List Char
  | [] => (false, [])
  | c :: rest => if c = '*' then (true, (dropStars rest).2) else (false, c :: rest)

/-- The scanning part of Go `scanChunk`: cuts the pattern at the next
top-level `*` (stars inside `[...]` ranges do not cut; `\\` skips the next
character). -/
def splitChunk : Bool → List Char → List Char × List Char
  | _, [] => ([], [])
  | inrange, c :: rest =>
    if c = '\\' then
      match rest with
      | [] => ([c], [])
      | c2 :: rest2 =>
        let p := splitChunk inrange rest2
        (c :: c2 :: p.1, p.2)
    else if c = '[' then
      let p := splitChunk true rest
      (c :: p.1, p.2)
    else if c = ']' then
      let p := splitChunk false rest
      (c :: p.1, p.2)
    else if c = '*' then
      if inrange then
        let p := splitChunk inrange rest
        (c :: p.1, p.2)
      else ([], c :: rest)
    else
      let p := splitChunk inrange rest
      (c :: p.1, p.2)

/-- Go `scanChunk`: returns (saw a leading star, next chunk, rest of pattern). -/
def scanChunk (pattern : List Char) : Bool × List Char × List Char :=
  let d := dropStars pattern
  let p := splitChunk false d.2
  (d.1, p.1, p.2)

theorem splitChunk_rest_length_le (inrange : Bool) (p : List Char) :
    (splitChunk inrange p).2.length ≤ p.length := by
  induction inrange, p using splitChunk.induct <;>
    (rw [splitChunk.eq_def]; try simp_all) <;> try omega

theorem splitChunk_chunk_cons_lt (inrange : Bool) (c : Char) (rest : List Char)
    (hc : c ≠ '*') : (splitChunk inrange (c :: rest)).2.length < (c :: rest).length := by
  have h1 := splitChunk_rest_length_le inrange rest
  have h2 := splitChunk_rest_length_le true rest
  have h3 := splitChunk_rest_length_le false rest
  by_cases hb : c = '\\'
  · subst hb
    match rest with
    | [] =>
      rw [splitChunk.eq_def]
      simp
    | c2 :: rest2 =>
      have h4 := splitChunk_rest_length_le inrange rest2
      rw [splitChunk.eq_def]
      simp only [List.length_cons] at h4 ⊢
      simp
      omega
  · by_cases ho : c = '['
    · subst ho
      rw [splitChunk.eq_def]
      simp
      omega
    · by_cases hcl : c = ']'
      · subst hcl
        rw [splitChunk.eq_def]
        simp
        omega
      · rw [splitChunk.eq_def]
        simp only [List.length_cons]
        simp [hb, ho, hcl, hc]
        omega

theorem dropStars_length_le : ∀ (p : List Char), (dropStars p).2.length ≤ p.length := by
  intro p
  induction p with
  | nil => simp [dropStars]
  | cons c rest ih =>
    by_cases hc : c = '*'
    · simp only [dropStars, hc, if_true]
      exact Nat.le_succ_of_le ih
    · simp [dropStars, hc]

theorem scanChunk_rest_lt {pattern : List Char} (h : pattern ≠ []) :
    (scanChunk pattern).2.2.length < pattern.length := by
  match pattern with
  | c :: rest =>
    by_cases hc : c = '*'
    · have h1 : (dropStars (c :: rest)).2.length ≤ rest.length := by
        simp only [dropStars, hc, if_true]
        exact dropStars_length_le rest
      have h2 := splitChunk_rest_length_le false (dropStars (c :: rest)).2
      simp only [scanChunk]
      calc (splitChunk false (dropStars (c :: rest)).2).2.length
          ≤ (dropStars (c :: rest)).2.length := h2
        _ ≤ rest.length := h1
        _ < (c :: rest).length := by simp
    · have hd : dropStars (c :: rest) = (false, c :: rest) := by
        simp [dropStars, hc]
      simp only [scanChunk, hd]
      exact splitChunk_chunk_cons_lt false c rest hc

/-- Go `Match`'s inner star loop: advance through `name` (never across `/`),
retrying the chunk at each position; returns the remaining name on success. -/
def starLoop (chunk pattern : List Char) : List Char → Except Unit (Option (List Char))
  | [] => .ok none
  | c :: srest =>
    if c = '/' then .ok none
    else
      match matchChunk chunk srest with
      | .error _ => .error ()
      | .ok (t, ok) =>
        if ok then
          if pattern = [] ∧ t ≠ [] then starLoop chunk pattern srest
          else .ok (some t)
        else starLoop chunk pattern srest

/-- Go `Match`'s trailing loop: before returning a non-match, check the rest
of the pattern is syntactically valid. -/
def validateRest (pattern : List Char) : Except Unit Unit :=
  if h : pattern = [] then .ok ()
  else
    have hlt : (scanChunk pattern).2.2.length < pattern.length := scanChunk_rest_lt h
    match matchChunk (scanChunk pattern).2.1 [] with
    | .error _ => .error ()
    | .ok _ => validateRest (scanChunk pattern).2.2
termination_by pattern.length

/-- Go `path/filepath.Match`'s main `Pattern:` loop. -/
def matchLoop (pattern name : List Char) : Except Unit Bool :=
  if h : pattern = [] then .ok name.isEmpty
  else
    have hlt : (scanChunk pattern).2.2.length < pattern.length := scanChunk_rest_lt h
    let star := (scanChunk pattern).1
    let chunk := (scanChunk pattern).2.1
    let rest := (scanChunk pattern).2.2
    if star ∧ chunk = [] then .ok (!(name.contains '/'))
    else
      match matchChunk chunk name with
      | .error _ => .error ()
      | .ok (t, ok) =>
        if ok ∧ (t = [] ∨ rest ≠ []) then matchLoop rest t
        else
          match (if star then starLoop chunk rest name else .ok none) with
          | .error _ => .error ()
          | .ok (some t2) => matchLoop rest t2
          | .ok none =>
            match validateRest rest with
            | .error _ => .error ()
            | .ok _ => .ok false
termination_by pattern.length

/-- Go `path/filepath.Match(pattern, name)` on unix; `.error ()` is
`ErrBadPattern`. -/
def filepathMatch (pattern name : String) : Except Unit Bool :=
  matchLoop pattern.data name.data

/-- The `ok, _ := filepath.Match(...)` idiom: a bad pattern counts as a
non-match (Go returns `false` together with the error). -/
def matchDropErr (pattern name : String) : Bool :=
  match filepathMatch pattern name with
  | .ok b => b
  | .error _ => false

/-! ### Data model (`pkg/types/types.go`).

Severities are Go `type Severity string` values, so they are plain strings
here (`"info"`, `"warn"`, `"error"`); plugin metadata may carry other
lowercased strings, exactly as in the source. -/

/-- `types.Suggestion`. -/
structure Suggestion where
  title : String := ""
  description : String := ""
  patch : String := ""
  path : String := ""
deriving Repr, DecidableEq

/-- `types.Finding`; field defaults are Go zero values. -/
structure Finding where
  ruleID : String := ""
  message : String := ""
  severity : String := ""
  filePath : String := ""
  line : Int := 0
  column : Int := 0
  resourceName : String := ""
  resourceKind : String := ""
  category : String := ""
  helpURL : String := ""
  suggestions : List Suggestion := []
deriving Repr, DecidableEq

/-- `types.RuleMetadata` (`AppliesTo` kinds are the Go `ResourceKind` strings). -/
structure RuleMetadata where
  ID : String := ""
  description : String := ""
  defaultSeverity : String := ""
  appliesTo : List String := []
  helpURL : String := ""
  category : String := ""
  enabled : Bool := false
deriving Repr, DecidableEq

/-- `types.ConfiguredRule`. -/
structure ConfiguredRule where
  metadata : RuleMetadata
  severity : String
  enabled : Bool
deriving Repr, DecidableEq

/-- `types.FindingBuilder`. -/
structure FindingBuilder where
  rule : ConfiguredRule
  filePath : String := ""
  line : Int := 0
  column : Int := 0
  resourceName : String := ""
  resourceKind : String := ""
deriving Repr, DecidableEq

/-- `FindingBuilder.NewFinding`: an empty severity argument falls back to the
configured severity. -/
def FindingBuilder.newFinding (b : FindingBuilder) (message severity : String) : Finding :=
  let sev := if severity = "" then b.rule.severity else severity
  { ruleID := b.rule.metadata.ID
    message := message
    severity := sev
    filePath := b.filePath
    line := b.line
    column := b.column
    resourceName := b.resourceName
    resourceKind := b.resourceKind
    category := b.rule.metadata.category
    helpURL := b.rule.metadata.helpURL }

/-! ### Configuration (`internal/config`). -/

/-- `config.RuleConfig`: `Enabled` is a `*bool` in Go, hence `Option Bool`. -/
structure RuleConfig where
  enabled : Option Bool := none
  severity : String := ""
deriving Repr, DecidableEq

/-- `config.Override`: a glob pattern with a rule-ID-keyed map of overrides
(the Go map is an association list with key lookup here). -/
structure Override where
  pattern : String := ""
  rules : List (String × RuleConfig) := []
deriving Repr, DecidableEq

/-- `config.Waiver` (`internal/config/waiver.go`). -/
structure Waiver where
  rule : String := ""
  file : String := ""
  reason : String := ""
  expires : String := ""
deriving Repr, DecidableEq

/-- `config.Config`.  The `Waivers` field is consumed by
`internal/lint/waiver_filter.go` (`cfg.Waivers`); the config source file in
the repository snapshot predates that field, so its type (a list of
`Waiver` records, per §6 of the spec: "a list of flat records (rule,
file-glob, reason, expiry)") is taken from that usage. -/
structure Config where
  rules : List (String × RuleConfig) := []
  overrides : List Override := []
  threshold : String := ""
  profiles : List String := []
  waivers : List Waiver := []
deriving Repr, DecidableEq

/-- Go association-list lookup standing in for Go map indexing `m[k]`. -/
def lookupKey {α : Type} (l : List (String × α)) (k : String) : Option α :=
  match l with
  | [] => none
  | (k2, v) :: rest => if k2 = k then some v else lookupKey rest k

/-- `config.ParseSeverity`: normalises and validates a severity string,
failing on the empty string and on anything that is not info/warn/error. -/
def ParseSeverity (value : String) : Except String String :=
  let norm := lowerStr (trimSpace value)
  if norm = "info" then .ok "info"
  else if norm = "warn" then .ok "warn"
  else if norm = "error" then .ok "error"
  else if norm = "" then .error "empty severity"
  else .error ("unknown severity: " ++ value)

/-- The `apply` closure inside `Config.Resolve`: overlays one `RuleConfig`
onto the working `ConfiguredRule` (enabled first, then severity, which must
parse). -/
def applyRuleConfig (result : ConfiguredRule) (rc : RuleConfig) : Except String ConfiguredRule :=
  let result := match rc.enabled with
    | some b => { result with enabled := b }
    | none => result
  if rc.severity ≠ "" then
    match ParseSeverity rc.severity with
    | .error e => .error e
    | .ok sev => .ok { result with severity := sev }
  else .ok result

/-- The override loop of `Config.Resolve`: every path-scoped entry whose
(non-empty) pattern matches `filePath` is applied in list order; a bad
pattern is an error. -/
def resolveOverrides (ruleID filePath : String) :
    List Override → ConfiguredRule → Except String ConfiguredRule
  | [], result => .ok result
  | ov :: rest, result =>
    if ov.pattern = "" then resolveOverrides ruleID filePath rest result
    else
      match filepathMatch ov.pattern filePath with
      | .error _ => .error ("invalid override pattern " ++ ov.pattern)
      | .ok false => resolveOverrides ruleID filePath rest result
      | .ok true =>
        match lookupKey ov.rules ruleID with
        | none => resolveOverrides ruleID filePath rest result
        | some rc =>
          match applyRuleConfig result rc with
          | .error e => .error e
          | .ok result2 => resolveOverrides ruleID filePath rest result2

/-- `Config.Resolve`: defaults from the metadata, then the rule-ID-keyed
global override, then path-scoped overrides in list order. -/
def Config.Resolve (c : Config) (rule : RuleMetadata) (filePath : String) :
    Except String ConfiguredRule :=
  let result : ConfiguredRule :=
    { metadata := rule, severity := rule.defaultSeverity, enabled := rule.enabled }
  match (match lookupKey c.rules rule.ID with
         | some rc => applyRuleConfig result rc
         | none => .ok result) with
  | .error e => .error e
  | .ok result2 => resolveOverrides rule.ID filePath c.overrides result2

/-! ### Waivers (`internal/config/waiver.go`, `internal/lint/waiver_filter.go`).

`Waiver.ExpiryTime` calls the Go stdlib parsers `time.Parse(time.RFC3339, _)`
and `time.Parse("2006-01-02", _)`; that external composite is the abstract
parameter `parseTs : String → Option Int` (`none` = both layouts fail), and
instants compare as integers (`Before` is `<`). -/

/-- `Waiver.Validate`: static validation at load time (only used by tests in
the repository; the run path never calls it). -/
def Waiver.Validate (parseTs : String → Option Int) (w : Waiver) : Except String Unit :=
  if trimSpace w.rule = "" then .error "rule is required"
  else if trimSpace w.file = "" then .error "file pattern is required"
  else if trimSpace w.reason = "" then .error "reason is required"
  else
    match (if trimSpace w.expires = "" then Except.error "expires is required"
           else match parseTs (trimSpace w.expires) with
                | some t => Except.ok t
                | none => Except.error "invalid expires format") with
    | .error e => .error e
    | .ok _ => .ok ()

/-- `Waiver.ExpiryTime`: trims the expiry, requires it non-empty, then defers
to the stdlib parsers (`parseTs`). -/
def Waiver.ExpiryTime (parseTs : String → Option Int) (w : Waiver) : Except String Int :=
  let value := trimSpace w.expires
  if value = "" then .error "expires is required"
  else
    match parseTs value with
    | some t => .ok t
    | none => .error ("invalid expires format " ++ value)

/-- `Waiver.Matches`: rule IDs compare case-insensitively after trimming;
the trimmed pattern must be non-empty and `filepath.Match` the finding's
file (a bad pattern counts as a non-match, its error being dropped). -/
def Waiver.Matches (w : Waiver) (finding ruleID : String) : Bool :=
  if lowerStr (trimSpace ruleID) ≠ lowerStr (trimSpace w.rule) then false
  else
    let pattern := trimSpace w.file
    if pattern = "" then false
    else matchDropErr pattern finding

/-- `waiverExpiredMeta` (`internal/lint/waiver_filter.go`). -/
def waiverExpiredMeta : RuleMetadata :=
  { ID := "WAIVER_EXPIRED"
    description := "Waiver has expired; finding is no longer suppressed"
    defaultSeverity := "warn"
    category := "waiver"
    enabled := true }

/-- `waiverInvalidMeta` (`internal/lint/waiver_filter.go`). -/
def waiverInvalidMeta : RuleMetadata :=
  { ID := "WAIVER_INVALID"
    description := "Waiver is invalid (missing rule, reason, or expiry)"
    defaultSeverity := "warn"
    category := "waiver"
    enabled := true }

/-- `newWaiverFinding`. -/
def newWaiverFinding (meta : RuleMetadata) (file message severity : String) : Finding :=
  { ruleID := meta.ID
    message := message
    severity := severity
    filePath := file
    category := meta.category }

/-- The inner `for i, f := range findings` loop of `applyWaivers` for one
waiver with parsed expiry `expires`: walks the findings beside their
`waived` flags, marking new suppressions and collecting the extra
diagnostics in finding order.  `fmtTs` is the stdlib `Format(time.RFC3339)`. -/
def waiverScan (fmtTs : Int → String) (now expires : Int) (w : Waiver) :
    List Finding → List Bool → List Bool × List Finding
  | [], _ => ([], [])
  | f :: fs, waived =>
    let wv := waived.headD false
    let restW := waived.tail
    if wv then
      let r := waiverScan fmtTs now expires w fs restW
      (true :: r.1, r.2)
    else if ¬ w.Matches f.filePath f.ruleID then
      let r := waiverScan fmtTs now expires w fs restW
      (false :: r.1, r.2)
    else if expires < now then
      let msg := "waiver for " ++ f.ruleID ++ " on " ++ f.filePath ++ " expired "
        ++ fmtTs expires ++ " (" ++ w.reason ++ ")"
      let r := waiverScan fmtTs now expires w fs restW
      (false :: r.1, newWaiverFinding waiverExpiredMeta f.filePath msg "warn" :: r.2)
    else if trimSpace w.reason = "" then
      let msg := "waiver for " ++ f.ruleID ++ " on " ++ f.filePath ++ " missing reason"
      let r := waiverScan fmtTs now expires w fs restW
      (false :: r.1, newWaiverFinding waiverInvalidMeta f.filePath msg "warn" :: r.2)
    else
      let r := waiverScan fmtTs now expires w fs restW
      (true :: r.1, r.2)

/-- One outer iteration of `applyWaivers` (`for idx, waiver := range
cfg.Waivers`): an unparsable expiry yields a single `WAIVER_INVALID`
diagnostic for the waiver and skips the findings scan. -/
def waiverStep (parseTs : String → Option Int) (fmtTs : Int → String) (now : Int)
    (findings : List Finding) (st : List Bool × List Finding) (iw : Nat × Waiver) :
    List Bool × List Finding :=
  let idx := iw.1
  let w := iw.2
  match w.ExpiryTime parseTs with
  | .error e =>
    (st.1, st.2 ++ [newWaiverFinding waiverInvalidMeta w.file
      ("waiver " ++ toString idx ++ " invalid: " ++ e) "warn"])
  | .ok expires =>
    let r := waiverScan fmtTs now expires w findings st.1
    (r.1, st.2 ++ r.2)

/-- `applyWaivers` (`internal/lint/waiver_filter.go`): returns the findings
that survive waiver filtering together with the extra waiver diagnostics.
The `ruleIndex` argument is accepted and unused, as in the source. -/
def applyWaivers (parseTs : String → Option Int) (fmtTs : Int → String) (now : Int)
    (cfg : Config) (findings : List Finding)
    (ruleIndex : List (String × RuleMetadata)) : List Finding × List Finding :=
  if cfg.waivers.isEmpty then (findings, [])
  else
    let init : List Bool × List Finding := (List.replicate findings.length false, [])
    let res := cfg.waivers.enum.foldl (waiverStep parseTs fmtTs now findings) init
    ((findings.zip res.1).filterMap (fun p => if p.2 then none else some p.1), res.2)

/-! ### Baseline (`internal/lint/runner.go`, third section). -/

/-- `baselineAgedMeta`. -/
def baselineAgedMeta : RuleMetadata :=
  { ID := "BASELINE_AGED"
    description := "Baseline entry has been present longer than allowed"
    defaultSeverity := "warn"
    category := "baseline"
    enabled := true }

/-- `lint.BaselineEntry`. -/
structure BaselineEntry where
  rule : String := ""
  file : String := ""
  introduced : String := ""
deriving Repr, DecidableEq

/-- `baselineKey`: lower-cased, whitespace-trimmed `file|rule`. -/
def baselineKey (file rule : String) : String :=
  lowerStr (trimSpace file) ++ "|" ++ lowerStr (trimSpace rule)

/-- Insert-with-overwrite into an association list, standing in for Go map
assignment `m[k] = v`. -/
def insertKey {α : Type} (l : List (String × α)) (k : String) (v : α) : List (String × α) :=
  match l with
  | [] => [(k, v)]
  | (k2, v2) :: rest => if k2 = k then (k, v) :: rest else (k2, v2) :: insertKey rest k v

/-- `lint.Baseline`: the entries plus the key-indexed lookup map. -/
structure Baseline where
  entries : List BaselineEntry := []
  index : List (String × BaselineEntry) := []
deriving Repr, DecidableEq

/-- The index-building loop shared by `LoadBaseline` (after JSON decoding,
which is external and faithfully round-trips the entry list). -/
def mkBaseline (entries : List BaselineEntry) : Baseline :=
  { entries := entries
    index := entries.foldl (fun ix e => insertKey ix (baselineKey e.file e.rule) e) [] }

/-- The entry `WriteBaseline` records for one finding. -/
def writeEntry (nowStr : String) (f : Finding) : BaselineEntry :=
  { rule := f.ruleID, file := f.filePath, introduced := nowStr }

/-- One iteration of `WriteBaseline`'s dedup loop: a finding whose baseline
key was already seen is skipped; otherwise its entry is appended and its key
recorded. -/
def writeBaselineStep (nowStr : String) (st : List BaselineEntry × List String)
    (f : Finding) : List BaselineEntry × List String :=
  let key := baselineKey f.filePath f.ruleID
  if st.2.contains key then st
  else (st.1 ++ [writeEntry nowStr f], st.2 ++ [key])

/-- The entry-construction loop of `WriteBaseline` (the filesystem write and
JSON encoding are external): deduplicates findings by baseline key, keeping
first occurrences, and stamps each entry with the current date string. -/
def writeBaselineEntries (nowStr : String) (findings : List Finding) : List BaselineEntry :=
  (findings.foldl (writeBaselineStep nowStr)
    (([] : List BaselineEntry), ([] : List String))).1

/-- The `BASELINE_AGED` diagnostic `Baseline.Filter` emits for a suppressed
finding whose entry is older than the aging threshold. -/
def agedFinding (f : Finding) (agingDays : Int) : Finding :=
  { ruleID := baselineAgedMeta.ID
    message := "baseline entry for " ++ f.ruleID ++ " (" ++ f.filePath
      ++ ") older than " ++ toString agingDays ++ " days"
    severity := baselineAgedMeta.defaultSeverity
    filePath := f.filePath
    category := baselineAgedMeta.category }

/-- The loop body of `Baseline.Filter` for one finding: an unmatched finding
stays in the result; a matched one joins the suppressed list and, when the
aging threshold is active and its entry's introduced date parses and is
older than the threshold, also contributes a `BASELINE_AGED` diagnostic.
`parseDate` is the stdlib `time.Parse("2006-01-02", _)`; the threshold
`now - agingDays·24h` is only consulted when `agingDays > 0` (Go's zero
`time.Time`). -/
def baselineStep (parseDate : String → Option Int) (now : Int) (bl : Baseline)
    (agingDays : Int) (st : List Finding × List Finding × List Finding) (f : Finding) :
    List Finding × List Finding × List Finding :=
  match lookupKey bl.index (baselineKey f.filePath f.ruleID) with
  | none => (st.1 ++ [f], st.2.1, st.2.2)
  | some entry =>
    let aged :=
      if agingDays > 0 then
        match parseDate entry.introduced with
        | some d => if d < now - agingDays * 86400 then [agedFinding f agingDays] else []
        | none => []
      else []
    (st.1, st.2.1 ++ aged, st.2.2 ++ [f])

/-- `Baseline.Filter`: splits findings into (kept, aged diagnostics,
suppressed).  A `nil`/empty-index baseline filters nothing. -/
def baselineFilter (parseDate : String → Option Int) (now : Int) (b : Option Baseline)
    (findings : List Finding) (agingDays : Int) :
    List Finding × List Finding × List Finding :=
  match b with
  | none => (findings, [], [])
  | some bl =>
    if bl.index.isEmpty then (findings, [], [])
    else findings.foldl (baselineStep parseDate now bl agingDays) ([], [], [])

/-! ### Manifests and rules (`internal/manifest`, `internal/rule`). -/

/-- `manifest.Manifest` (the YAML node and raw object are not needed by the
modelled logic; rule checks consume the manifest through opaque check
functions). -/
structure Manifest where
  filePath : String := ""
  documentIndex : Int := 0
  kind : String := ""
  apiVersion : String := ""
  name : String := ""
  nspace : String := ""
  line : Int := 0
  column : Int := 0
  metadataLine : Int := 0
deriving Repr, DecidableEq

/-- `rule.Context`. -/
structure RuleContext where
  config : Config
  manifests : List Manifest

/-- `rule.Rule`: metadata, an optional applicability predicate (`nil` in Go
is `none`), and a check function. -/
structure Rule where
  metadata : RuleMetadata
  applies : Option (Manifest → Bool) := none
  check : Manifest → RuleContext → ConfiguredRule → List Finding

/-- The `AR011` metadata hardcoded inside `rule.UniqueNameFindings`. -/
def uniqueNameMeta : RuleMetadata :=
  { ID := "AR011"
    description := "Application names must be unique across manifests"
    defaultSeverity := "error"
    appliesTo := ["Application"]
    category := "consistency"
    enabled := true }

/-- Append a manifest to its name group (`seen[m.Name] = append(...)`). -/
def addToGroup (groups : List (String × List Manifest)) (name : String) (m : Manifest) :
    List (String × List Manifest) :=
  match groups with
  | [] => [(name, [m])]
  | (n, ms) :: rest =>
    if n = name then (n, ms ++ [m]) :: rest else (n, ms) :: addToGroup rest name m

/-- `rule.UniqueNameFindings`: groups Application manifests by name and, for
every name declared more than once, emits one finding per offending
manifest.  Configuration is resolved per offending file; a resolution
*error* falls back to the rule's default configuration (it does not abort),
and a disabled resolution suppresses just that manifest's finding.  Go
iterates the `seen` map in unspecified order; the model uses first-insertion
order (the final report ordering is restored by the sort). -/
def uniqueNameFindings (ctx : RuleContext) : List Finding :=
  let seen := ctx.manifests.foldl
    (fun groups m => if m.kind ≠ "Application" then groups else addToGroup groups m.name m) []
  seen.foldl
    (fun acc nameGroup =>
      let name := nameGroup.1
      let group := nameGroup.2
      if group.length ≤ 1 then acc
      else
        acc ++ group.filterMap (fun m =>
          let cfg := match ctx.config.Resolve uniqueNameMeta m.filePath with
            | .error _ =>
              { metadata := uniqueNameMeta
                severity := uniqueNameMeta.defaultSeverity
                enabled := uniqueNameMeta.enabled }
            | .ok c => c
          if ¬ cfg.enabled then none
          else
            let builder : FindingBuilder :=
              { rule := cfg
                filePath := m.filePath
                line := m.metadataLine
                resourceName := m.name
                resourceKind := m.kind }
            some (builder.newFinding
              ("Application name '" ++ name ++ "' is declared in multiple manifests") "error")))
    []

/-! ### Rego plugin adapter (`internal/plugin/rego`, `src/unnamed/part_001`).

OPA evaluation is external: a prepared query is an abstract function from
the input document to a result set, a list of results each carrying a list
of expression values.  Values are the dynamic JSON-like Go `interface{}`
data reaching `extractFindingMaps` / `mapToFinding`. -/

/-- A dynamic Go value (`interface{}`) as seen by the plugin adapter.
Numbers are integral (`numberToInt` truncates floats; line/column values in
play are integers). -/
inductive GoVal where
  | null : GoVal
  | bool (b : Bool) : GoVal
  | str (s : String) : GoVal
  | num (n : Int) : GoVal
  | list (items : List GoVal) : GoVal
  | obj (fields : List (String × GoVal)) : GoVal

/-- A prepared query's evaluation result: one list of expression values per
result (`rego.ResultSet`). -/
abbrev ResultSet := List (List GoVal)

/-- `regoPlugin`: metadata plus the prepared deny query and the optional
prepared applies query, both abstract evaluation functions. -/
structure RegoPlugin where
  source : String
  meta : RuleMetadata
  denyQuery : GoVal → Except String ResultSet
  appliesQuery : Option (GoVal → Except String ResultSet)

/-- `manifestToInput`: the normalized input view handed to plugin queries. -/
def manifestToInput (m : Manifest) : GoVal :=
  .obj [("file", .str m.filePath), ("document_index", .num m.documentIndex),
        ("kind", .str m.kind), ("api_version", .str m.apiVersion),
        ("name", .str m.name), ("namespace", .str m.nspace),
        ("line", .num m.line), ("column", .num m.column),
        ("metadata_line", .num m.metadataLine)]

/-- `toStringMap`: a deny result item must be an object. -/
def toStringMap (val : GoVal) : Except String (List (String × GoVal)) :=
  match val with
  | .obj fields => .ok fields
  | _ => .error "finding must be object"

/-- `extractFindingMaps`: a deny expression value is nothing, one object, or
an array of objects; anything else is a hard evaluation error. -/
def extractFindingMaps (value : GoVal) : Except String (List (List (String × GoVal))) :=
  match value with
  | .null => .ok []
  | .list items => items.mapM toStringMap
  | .obj fields => .ok [fields]
  | _ => .error "deny query must return objects or array of objects"

/-- String field access `raw["k"].(string)` (non-strings and absent keys
yield no value). -/
def objStr (fields : List (String × GoVal)) (k : String) : Option String :=
  match lookupKey fields k with
  | some (.str s) => some s
  | _ => none

/-- `numberToInt` on a field: any numeric value converts. -/
def objNum (fields : List (String × GoVal)) (k : String) : Option Int :=
  match lookupKey fields k with
  | some (.num n) => some n
  | _ => none

/-- `mapToFinding`: starts from module/document defaults and overrides each
field from the raw violation object when present and non-empty. -/
def mapToFinding (raw : List (String × GoVal)) (meta : RuleMetadata) (m : Manifest) : Finding :=
  let finding : Finding :=
    { ruleID := meta.ID
      severity := meta.defaultSeverity
      message := "violation"
      filePath := m.filePath
      line := m.line
      column := m.column
      resourceName := m.name
      resourceKind := m.kind
      category := meta.category
      helpURL := meta.helpURL }
  let finding := match objStr raw "message" with
    | some msg => if msg ≠ "" then { finding with message := msg } else finding
    | none => finding
  let finding := match objStr raw "rule_id" with
    | some rid => if rid ≠ "" then { finding with ruleID := rid } else finding
    | none => finding
  let finding := match objStr raw "severity" with
    | some sev => if sev ≠ "" then { finding with severity := lowerStr sev } else finding
    | none => finding
  let finding := match objStr raw "file" with
    | some file => if file ≠ "" then { finding with filePath := file } else finding
    | none => finding
  let finding := match objNum raw "line" with
    | some l => { finding with line := l }
    | none => finding
  let finding := match objNum raw "column" with
    | some c => { finding with column := c }
    | none => finding
  let finding := match objStr raw "resource_name" with
    | some rn => if rn ≠ "" then { finding with resourceName := rn } else finding
    | none => finding
  let finding := match objStr raw "resource_kind" with
    | some rk => if rk ≠ "" then { finding with resourceKind := rk } else finding
    | none => finding
  let finding := match objStr raw "category" with
    | some cat => if cat ≠ "" then { finding with category := cat } else finding
    | none => finding
  match objStr raw "help_url" with
  | some help => if help ≠ "" then { finding with helpURL := help } else finding
  | none => finding

/-- The deny evaluation half of `regoPlugin.Check`. -/
def evalDeny (p : RegoPlugin) (input : GoVal) (m : Manifest) : Except String (List Finding) :=
  match p.denyQuery input with
  | .error e => .error ("evaluate deny: " ++ e)
  | .ok rs =>
    (rs.foldl
      (fun acc exprs =>
        match acc with
        | .error e => .error e
        | .ok fs =>
          exprs.foldl
            (fun acc2 v =>
              match acc2 with
              | .error e => .error e
              | .ok fs2 =>
                match extractFindingMaps v with
                | .error e => .error e
                | .ok maps => .ok (fs2 ++ maps.map (fun entry => mapToFinding entry p.meta m)))
            (.ok fs))
      (.ok []))

/-- `regoPlugin.Check`: when an `applies` query is present, an empty result
set or a result set with no boolean-true expression skips the document
entirely, without evaluating `deny`. -/
def RegoPlugin.check (p : RegoPlugin) (m : Manifest) : Except String (List Finding) :=
  let input := manifestToInput m
  match p.appliesQuery with
  | some q =>
    match q input with
    | .error e => .error ("evaluate applies: " ++ e)
    | .ok rs =>
      if rs.isEmpty then .ok []
      else
        let matched := rs.any (fun exprs => exprs.any (fun v =>
          match v with
          | .bool b => b
          | _ => false))
        if ¬ matched then .ok []
        else evalDeny p input m
  | none => evalDeny p input m

/-- `regoPlugin.AppliesTo`: `nil` when the metadata has no `applies_to`
kinds, otherwise membership of the manifest's kind in that set. -/
def RegoPlugin.appliesTo (p : RegoPlugin) : Option (Manifest → Bool) :=
  if p.meta.appliesTo.isEmpty then none
  else some (fun m => p.meta.appliesTo.contains m.kind)

/-- `evaluateMetadata`: the metadata query must produce at least one result
with one expression, whose value must be an object with a non-empty string
`id`; description/category/help_url/enabled/severity/applies_to are
optional (enabled defaults to true, severity to warn). -/
def evaluateMetadata (rs : ResultSet) : Except String RuleMetadata :=
  match rs with
  | [] => .error "metadata query returned no results"
  | exprs :: _ =>
    match exprs with
    | [] => .error "metadata query returned no results"
    | v :: _ =>
      match v with
      | .obj fields =>
        let id := (objStr fields "id").getD ""
        if id = "" then .error "metadata.id is required"
        else
          let meta : RuleMetadata := { ID := id, enabled := true }
          let meta := match objStr fields "description" with
            | some d => { meta with description := d }
            | none => meta
          let meta := match objStr fields "category" with
            | some c => { meta with category := c }
            | none => meta
          let meta := match objStr fields "help_url" with
            | some h => { meta with helpURL := h }
            | none => meta
          let meta := match lookupKey fields "enabled" with
            | some (.bool b) => { meta with enabled := b }
            | _ => meta
          let meta := match objStr fields "severity" with
            | some sev => { meta with defaultSeverity := lowerStr sev }
            | none => { meta with defaultSeverity := "warn" }
          let meta := match lookupKey fields "applies_to" with
            | some (.list items) =>
              { meta with appliesTo := items.filterMap (fun it =>
                  match it with
                  | .str s => some s
                  | _ => none) }
            | _ => meta
          .ok meta
      | _ => .error "metadata must be an object"

/-- The metadata portion of `loadFile`: after parsing, compiling and
preparing the queries (external OPA machinery), the metadata query result is
evaluated; its failure fails the module load. -/
def loadModule (source : String) (metadataResult : ResultSet)
    (denyQuery : GoVal → Except String ResultSet)
    (appliesQuery : Option (GoVal → Except String ResultSet)) : Except String RegoPlugin :=
  match evaluateMetadata metadataResult with
  | .error e => .error e
  | .ok meta =>
    .ok { source := source
          meta := meta
          denyQuery := denyQuery
          appliesQuery := appliesQuery }

/-! ### Deterministic ordering (`sort.SliceStable` in `Runner.Run`). -/

/-- The comparison closure passed to `sort.SliceStable`: lexicographic on
(file path, line, rule ID, message), each component by Go `<`. -/
def findingLess (a b : Finding) : Bool :=
  if a.filePath = b.filePath then
    if a.line = b.line then
      if a.ruleID = b.ruleID then decide (a.message < b.message)
      else decide (a.ruleID < b.ruleID)
    else decide (a.line < b.line)
  else decide (a.filePath < b.filePath)

/-- Stable insertion: the new element goes after every element it is not
strictly less than, so elements comparing equal keep their original order. -/
def insertStable (a : Finding) : List Finding → List Finding
  | [] => [a]
  | x :: xs => if findingLess a x then a :: x :: xs else x :: insertStable a xs

/-- The semantics of `sort.SliceStable` with `findingLess`: a stable sort
realised as left-to-right stable insertion. -/
def sortFindings (l : List Finding) : List Finding :=
  l.foldl (fun acc a => insertStable a acc) []

/-! ### The runner (`internal/lint/runner.go`, second section).

File discovery, YAML parsing, schema validation, rendering and dry-run are
external collaborators: the model takes the parsed manifests and the
per-manifest validator functions as parameters.  The bounded worker pool of
stage 2 appends each manifest's findings block atomically under a mutex, in
a scheduling-dependent order: `runModelWith` therefore takes the arrival
order of those blocks as an explicit argument, and `runModel` instantiates
it with the canonical (manifest) order; determinism is a theorem quantifying
over all arrival permutations. -/

/-- `plugin.RulePlugin`, the interface the runner drives. -/
structure RulePlugin where
  metadata : RuleMetadata
  appliesTo : Option (Manifest → Bool) := none
  check : Manifest → Except String (List Finding)

/-- A loaded Rego module seen through the runner's plugin interface. -/
def RegoPlugin.toRulePlugin (p : RegoPlugin) : RulePlugin :=
  { metadata := p.meta, appliesTo := p.appliesTo, check := p.check }

/-- `lint.Options` (the caller-facing knobs the model needs; `MaxParallel`
only affects scheduling, which the arrival-order parameter captures). -/
structure RunOptions where
  target : String := ""
  includeApplications : Bool := false
  includeApplicationSets : Bool := false
  includeProjects : Bool := false
  maxParallel : Int := 0
  baseline : Option Baseline := none
  baselineAgingDays : Int := 0

/-- `lint.Report`. -/
structure Report where
  findings : List Finding
  ruleIndex : List (String × RuleMetadata)
  suppressed : List Finding
deriving Repr, DecidableEq

/-- The `Runner` plus its external collaborators. -/
structure RunnerModel where
  cfg : Config
  rules : List Rule := []
  plugins : List RulePlugin := []
  schemaMetadata : List RuleMetadata := []
  schemaValidate : Manifest → Except String (List Finding)
  renderEnabled : Bool := false
  renderMetadata : List RuleMetadata := []
  render : Manifest → Except String (List Finding) := fun _ => .ok []
  dryRunEnabled : Bool := false
  dryRunMetadata : List RuleMetadata := []
  dryRunValidate : List Manifest → Except String (List Finding) := fun _ => .ok []
  parseTs : String → Option Int := fun _ => none
  fmtTs : Int → String := fun _ => ""
  now : Int := 0

/-- `includeManifest`: kind-based inclusion. -/
def includeManifest (m : Manifest) (apps appsets projects : Bool) : Bool :=
  if m.kind = "Application" then apps
  else if m.kind = "ApplicationSet" then appsets
  else if m.kind = "AppProject" then projects
  else false

/-- The defaulting at the top of `Run`: disabling all three kind filters
re-enables all of them. -/
def normalizeKinds (o : RunOptions) : Bool × Bool × Bool :=
  if ¬ o.includeApplications ∧ ¬ o.includeApplicationSets ∧ ¬ o.includeProjects then
    (true, true, true)
  else (o.includeApplications, o.includeApplicationSets, o.includeProjects)

/-- The inclusion filter of `Run` (the workdir-relative path rewrite is
external `filepath.Rel` and is modelled with an empty workdir, leaving paths
unchanged). -/
def includedManifests (o : RunOptions) (manifests : List Manifest) : List Manifest :=
  let k := normalizeKinds o
  manifests.filter (fun m => includeManifest m k.1 k.2.1 k.2.2)

/-- Go map assignment loop building the rule index. -/
def insertMeta (ix : List (String × RuleMetadata)) (meta : RuleMetadata) :
    List (String × RuleMetadata) :=
  insertKey ix meta.ID meta

/-- The `ruleIndex` accumulation in `Run`. -/
def buildRuleIndex (R : RunnerModel) : List (String × RuleMetadata) :=
  let ix := R.schemaMetadata.foldl insertMeta []
  let ix := (R.rules.map Rule.metadata).foldl insertMeta ix
  let ix := insertMeta ix waiverExpiredMeta
  let ix := insertMeta ix waiverInvalidMeta
  let ix := insertMeta ix baselineAgedMeta
  let ix := (R.plugins.map RulePlugin.metadata).foldl insertMeta ix
  if R.renderEnabled then R.renderMetadata.foldl insertMeta ix else ix

/-- Stage 2 (the parallel fan-out): each manifest's local findings block is
schema validation followed by optional rendering; any error aborts the run
(Go keeps the first error under `errOnce`; which error wins is
scheduling-dependent, the model reports the canonical-order first one). -/
def stage2Blocks (R : RunnerModel) (included : List Manifest) :
    Except String (List (List Finding)) :=
  included.mapM (fun m => do
    let sf ← R.schemaValidate m
    if R.renderEnabled then
      let rf ← R.render m
      pure (sf ++ rf)
    else pure sf)

/-- One built-in rule inside the per-manifest rule loop: skipped when its
predicate rejects the manifest or its resolved configuration is disabled;
a resolution error aborts. -/
def ruleStep (cfg : Config) (ctx : RuleContext) (m : Manifest)
    (acc : Except String (List Finding)) (rl : Rule) : Except String (List Finding) :=
  match acc with
  | .error e => .error e
  | .ok fs =>
    let skip := match rl.applies with
      | some ap => !(ap m)
      | none => false
    if skip then .ok fs
    else
      match cfg.Resolve rl.metadata m.filePath with
      | .error e => .error e
      | .ok cr => if cr.enabled then .ok (fs ++ rl.check m ctx cr) else .ok fs

/-- The plugin-result normalisation loop in `Run`: empty fields fall back to
the configured metadata and the document's identity. -/
def normalizePluginFinding (cr : ConfiguredRule) (m : Manifest) (f : Finding) : Finding :=
  let f := if f.ruleID = "" then { f with ruleID := cr.metadata.ID } else f
  let f := if f.severity = "" then { f with severity := cr.severity } else f
  let f := if f.filePath = "" then { f with filePath := m.filePath } else f
  let f := if f.resourceName = "" then { f with resourceName := m.name } else f
  let f := if f.resourceKind = "" then { f with resourceKind := m.kind } else f
  let f := if f.category = "" then { f with category := cr.metadata.category } else f
  if f.helpURL = "" then { f with helpURL := cr.metadata.helpURL } else f

/-- One plugin inside the per-manifest plugin loop. -/
def pluginStep (cfg : Config) (m : Manifest)
    (acc : Except String (List Finding)) (plug : RulePlugin) : Except String (List Finding) :=
  match acc with
  | .error e => .error e
  | .ok fs =>
    let skip := match plug.appliesTo with
      | some ap => !(ap m)
      | none => false
    if skip then .ok fs
    else
      match cfg.Resolve plug.metadata m.filePath with
      | .error e => .error e
      | .ok cr =>
        if ¬ cr.enabled then .ok fs
        else
          match plug.check m with
          | .error e => .error e
          | .ok results => .ok (fs ++ results.map (normalizePluginFinding cr m))

/-- The sequential rule/plugin evaluation stage of `Run`. -/
def perDocFindings (R : RunnerModel) (ctx : RuleContext) (included : List Manifest) :
    Except String (List Finding) :=
  included.foldl
    (fun acc m =>
      let acc2 := R.rules.foldl (ruleStep R.cfg ctx m) acc
      R.plugins.foldl (pluginStep R.cfg m) acc2)
    (.ok [])

/-- The deterministic tail of the findings collection: dry-run findings,
then per-document rule/plugin findings, then cross-document uniqueness. -/
def tailFindings (R : RunnerModel) (included : List Manifest) :
    Except String (List Finding) := do
  let ctx : RuleContext := { config := R.cfg, manifests := included }
  let dr ← if R.dryRunEnabled then R.dryRunValidate included else pure []
  let pr ← perDocFindings R ctx included
  pure (dr ++ pr ++ uniqueNameFindings ctx)

/-- `Runner.Run` with the stage-2 arrival order made explicit (`arrival` is
the order in which the worker goroutines' blocks reached the shared slice).
After collection: stable sort, waiver filtering (diagnostics appended),
baseline filtering (aged diagnostics appended), final stable sort. -/
def runModelWith (R : RunnerModel) (o : RunOptions) (manifests : List Manifest)
    (arrival : List (List Finding)) : Except String Report :=
  if o.target = "" then .error "no target specified"
  else
    let included := includedManifests o manifests
    let ruleIndex := buildRuleIndex R
    match tailFindings R included with
    | .error e => .error e
    | .ok tl =>
      let findings := sortFindings (arrival.flatten ++ tl)
      let waiverRes := applyWaivers R.parseTs R.fmtTs R.now R.cfg findings ruleIndex
      let filtered1 := waiverRes.1 ++ waiverRes.2
      let blRes := baselineFilter R.parseTs R.now o.baseline filtered1 o.baselineAgingDays
      let final := sortFindings (blRes.1 ++ blRes.2.1)
      .ok { findings := final, ruleIndex := ruleIndex, suppressed := blRes.2.2 }

/-- `Runner.Run` with the canonical arrival order (the per-manifest blocks in
manifest order). -/
def runModel (R : RunnerModel) (o : RunOptions) (manifests : List Manifest) :
    Except String Report :=
  match stage2Blocks R (includedManifests o manifests) with
  | .error e => .error e
  | .ok blocks => runModelWith R o manifests blocks

/-! ### Ordering infrastructure: the sort comparator as a lexicographic key. -/

/-- The sort key of the `sort.SliceStable` comparator: (file path, line,
rule ID, message), ordered lexicographically. -/
def sortKey (f : Finding) : String ×ₗ Int ×ₗ String ×ₗ String :=
  toLex (f.filePath, toLex (f.line, toLex (f.ruleID, f.message)))

theorem findingLess_iff_lt (a b : Finding) : findingLess a b = true ↔ sortKey a < sortKey b := by
  unfold findingLess sortKey
  by_cases h1 : a.filePath = b.filePath <;>
    by_cases h2 : a.line = b.line <;>
      by_cases h3 : a.ruleID = b.ruleID <;>
        simp [h1, h2, h3, Prod.Lex.lt_iff]

theorem findingLess_false_iff (a b : Finding) :
    findingLess a b = false ↔ ¬ sortKey a < sortKey b := by
  rw [← Bool.not_eq_true, findingLess_iff_lt]

theorem sortKey_eq_fields {a b : Finding} (h : sortKey a = sortKey b) :
    a.filePath = b.filePath ∧ a.line = b.line ∧ a.ruleID = b.ruleID
      ∧ a.message = b.message := by
  unfold sortKey at h
  have h2 := toLex.injective h
  simp only [Prod.mk.injEq] at h2
  obtain ⟨e1, h3⟩ := h2
  have h4 := toLex.injective h3
  simp only [Prod.mk.injEq] at h4
  obtain ⟨e2, h5⟩ := h4
  have h6 := toLex.injective h5
  simp only [Prod.mk.injEq] at h6
  exact ⟨e1, e2, h6.1, h6.2⟩

/-- Sort-key injectivity on a findings list: findings agreeing on
(file, line, rule, message) are equal as values.  For the real pipeline this
holds because distinct documents carry distinct source positions (each
parsed document starts on its own line of its file), so findings from
different documents never collide on (file path, line). -/
def keyInjOn (l : List Finding) : Prop :=
  ∀ a ∈ l, ∀ b ∈ l, sortKey a = sortKey b → a = b

theorem keyInjOn_of_perm {l₁ l₂ : List Finding} (h : l₁.Perm l₂) (hinj : keyInjOn l₂) :
    keyInjOn l₁ := by
  intro a ha b hb hk
  exact hinj a (h.mem_iff.mp ha) b (h.mem_iff.mp hb) hk

theorem bool_eq_false_of_not {b : Bool} (h : ¬ b = true) : b = false := by
  cases hv : b
  · rfl
  · exact absurd hv h

theorem findingLess_eq_false_of_not {a x : Finding} (h : ¬ findingLess a x = true) :
    findingLess a x = false := bool_eq_false_of_not h

theorem insertStable_cons_pos {a x : Finding} {xs : List Finding}
    (h : findingLess a x = true) : insertStable a (x :: xs) = a :: x :: xs := by
  simp [insertStable, h]

theorem insertStable_cons_neg {a x : Finding} {xs : List Finding}
    (h : findingLess a x = false) : insertStable a (x :: xs) = x :: insertStable a xs := by
  simp [insertStable, h]

theorem insertStable_perm (a : Finding) (l : List Finding) :
    (insertStable a l).Perm (a :: l) := by
  induction l with
  | nil => simp [insertStable]
  | cons x xs ih =>
    by_cases h : findingLess a x = true
    · rw [insertStable_cons_pos h]
    · rw [insertStable_cons_neg (findingLess_eq_false_of_not h)]
      exact (ih.cons x).trans (List.Perm.swap a x xs)

theorem sortFindings_perm (l : List Finding) : (sortFindings l).Perm l := by
  have aux : ∀ (l acc : List Finding),
      (l.foldl (fun acc a => insertStable a acc) acc).Perm (acc ++ l) := by
    intro l
    induction l with
    | nil => intro acc; simp
    | cons x xs ih =>
      intro acc
      rw [List.foldl_cons]
      have h1 := ih (insertStable x acc)
      have h2 : (insertStable x acc ++ xs).Perm (acc ++ x :: xs) :=
        ((insertStable_perm x acc).append_right xs).trans List.perm_middle.symm
      exact h1.trans h2
  simpa using aux l []

theorem insertStable_sorted {l : List Finding}
    (hs : l.Pairwise (fun x y => sortKey x ≤ sortKey y)) (a : Finding) :
    (insertStable a l).Pairwise (fun x y => sortKey x ≤ sortKey y) := by
  induction l with
  | nil => simp [insertStable]
  | cons x xs ih =>
    rw [List.pairwise_cons] at hs
    by_cases h : findingLess a x = true
    · have hax : sortKey a < sortKey x := (findingLess_iff_lt a x).mp h
      rw [insertStable_cons_pos h, List.pairwise_cons]
      constructor
      · intro y hy
        rcases List.mem_cons.mp hy with rfl | hy2
        · exact hax.le
        · exact hax.le.trans (hs.1 y hy2)
      · rw [List.pairwise_cons]
        exact hs
    · have hfal := findingLess_eq_false_of_not h
      have hxa : sortKey x ≤ sortKey a :=
        not_lt.mp ((findingLess_false_iff a x).mp hfal)
      rw [insertStable_cons_neg hfal, List.pairwise_cons]
      constructor
      · intro y hy
        rcases List.mem_cons.mp ((insertStable_perm a xs).mem_iff.mp hy) with rfl | hy2
        · exact hxa
        · exact hs.1 y hy2
      · exact ih hs.2

theorem sortFindings_sorted (l : List Finding) :
    (sortFindings l).Pairwise (fun x y => sortKey x ≤ sortKey y) := by
  have aux : ∀ (l acc : List Finding),
      acc.Pairwise (fun x y => sortKey x ≤ sortKey y) →
      (l.foldl (fun acc a => insertStable a acc) acc).Pairwise
        (fun x y => sortKey x ≤ sortKey y) := by
    intro l
    induction l with
    | nil => intro acc h; simpa using h
    | cons x xs ih =>
      intro acc h
      rw [List.foldl_cons]
      exact ih (insertStable x acc) (insertStable_sorted h x)
  exact aux l [] List.Pairwise.nil

theorem eq_of_perm_sorted_inj :
    ∀ {l₁ l₂ : List Finding}, l₁.Perm l₂ →
      l₁.Pairwise (fun x y => sortKey x ≤ sortKey y) →
      l₂.Pairwise (fun x y => sortKey x ≤ sortKey y) →
      keyInjOn l₁ → l₁ = l₂ := by
  intro l₁
  induction l₁ with
  | nil =>
    intro l₂ hp _ _ _
    exact (List.Perm.nil_eq hp).symm ▸ rfl
  | cons a t₁ ih =>
    intro l₂ hp hs₁ hs₂ hinj
    match l₂ with
    | [] => exact absurd hp.symm (by simp)
    | b :: t₂ =>
      by_cases hab : a = b
      · subst hab
        have ht : t₁.Perm t₂ := hp.cons_inv
        have : t₁ = t₂ := by
          apply ih ht (List.Pairwise.of_cons hs₁) (List.Pairwise.of_cons hs₂)
          intro x hx y hy hk
          exact hinj x (List.mem_cons_of_mem a hx) y (List.mem_cons_of_mem a hy) hk
        rw [this]
      · exfalso
        have hain : a ∈ b :: t₂ := hp.mem_iff.mp (List.mem_cons_self a t₁)
        have hbin : b ∈ a :: t₁ := hp.symm.mem_iff.mp (List.mem_cons_self b t₂)
        have hat2 : a ∈ t₂ := by
          rcases List.mem_cons.mp hain with h | h
          · exact absurd h hab
          · exact h
        have hbt1 : b ∈ t₁ := by
          rcases List.mem_cons.mp hbin with h | h
          · exact absurd h.symm hab
          · exact h
        have h1 : sortKey a ≤ sortKey b := (List.pairwise_cons.mp hs₁).1 b hbt1
        have h2 : sortKey b ≤ sortKey a := (List.pairwise_cons.mp hs₂).1 a hat2
        exact hab (hinj a (List.mem_cons_self a t₁) b hbin (le_antisymm h1 h2))

theorem sortFindings_eq_of_perm {l₁ l₂ : List Finding} (h : l₁.Perm l₂)
    (hinj : keyInjOn l₁) : sortFindings l₁ = sortFindings l₂ := by
  apply eq_of_perm_sorted_inj
    ((sortFindings_perm l₁).trans (h.trans (sortFindings_perm l₂).symm))
    (sortFindings_sorted l₁) (sortFindings_sorted l₂)
  exact keyInjOn_of_perm (sortFindings_perm l₁) hinj

theorem flatten_perm_of_perm {α : Type} :
    ∀ {l₁ l₂ : List (List α)}, l₁.Perm l₂ → l₁.flatten.Perm l₂.flatten := by
  intro l₁ l₂ h
  induction h with
  | nil => exact List.Perm.refl _
  | cons x _ ih => simpa using ih.append_left x
  | swap x y l =>
    simp only [List.flatten_cons]
    rw [← List.append_assoc, ← List.append_assoc]
    exact (List.perm_append_comm).append_right _
  | trans _ _ ih1 ih2 => exact ih1.trans ih2

/-! ### Behaviour of one waiver pass over the findings. -/

/-- The extra finding an expired waiver emits for one matching finding. -/
def expiredDiagnostic (fmtTs : Int → String) (t : Int) (w : Waiver) (f : Finding) : Finding :=
  newWaiverFinding waiverExpiredMeta f.filePath
    ("waiver for " ++ f.ruleID ++ " on " ++ f.filePath ++ " expired "
      ++ fmtTs t ++ " (" ++ w.reason ++ ")") "warn"

theorem waiverScan_expired (fmtTs : Int → String) {now t : Int} (w : Waiver)
    (ht : t < now) (findings : List Finding) :
    waiverScan fmtTs now t w findings (List.replicate findings.length false)
      = (List.replicate findings.length false,
         (findings.filter (fun f => w.Matches f.filePath f.ruleID)).map
           (expiredDiagnostic fmtTs t w)) := by
  induction findings with
  | nil => simp [waiverScan]
  | cons f fs ih =>
    by_cases hm : w.Matches f.filePath f.ruleID = true
    · simp [waiverScan, List.replicate, hm, ht, ih, expiredDiagnostic, List.filter]
    · simp [waiverScan, List.replicate, hm, ih, List.filter,
        bool_eq_false_of_not hm]

theorem waiverScan_valid (fmtTs : Int → String) {now t : Int} (w : Waiver)
    (hn : ¬ t < now) (hr : ¬ trimSpace w.reason = "") :
    ∀ (findings : List Finding) (flags : List Bool),
      flags.length = findings.length →
      waiverScan fmtTs now t w findings flags
        = (List.zipWith (fun f b => b || w.Matches f.filePath f.ruleID) findings flags, []) := by
  intro findings
  induction findings with
  | nil => intro flags _; simp [waiverScan]
  | cons f fs ih =>
    intro flags hlen
    match flags with
    | [] => simp at hlen
    | b :: bs =>
      simp only [List.length_cons, Nat.succ.injEq] at hlen
      by_cases hb : b = true
      · subst hb
        simp [waiverScan, ih bs hlen]
      · have hbf : b = false := bool_eq_false_of_not hb
        subst hbf
        by_cases hm : w.Matches f.filePath f.ruleID = true
        · simp [waiverScan, hm, hn, hr, ih bs hlen]
        · simp [waiverScan, hm, ih bs hlen, bool_eq_false_of_not hm]

theorem filterMap_zip_replicate_false (findings : List Finding) :
    ((findings.zip (List.replicate findings.length false)).filterMap
      (fun p => if p.2 then none else some p.1)) = findings := by
  induction findings with
  | nil => rfl
  | cons f fs ih => simp [List.replicate, ih]

theorem filterMap_zip_map (findings : List Finding) (p : Finding → Bool) :
    ((findings.zip (findings.map p)).filterMap (fun q => if q.2 then none else some q.1))
      = findings.filter (fun f => !(p f)) := by
  induction findings with
  | nil => rfl
  | cons f fs ih =>
    by_cases hp : p f = true
    · simp [List.filter, hp, ih]
    · simp only [List.map_cons, List.zip_cons_cons, List.filterMap_cons]
      simp [hp, List.filter, ih]

theorem zipWith_or_replicate_false (findings : List Finding) (m : Finding → Bool) :
    List.zipWith (fun f b => b || m f) findings (List.replicate findings.length false)
      = findings.map m := by
  induction findings with
  | nil => rfl
  | cons f fs ih => simp [List.replicate, ih]

theorem zipWith_or_map (findings : List Finding) (m1 m2 : Finding → Bool) :
    List.zipWith (fun f b => b || m2 f) findings (findings.map m1)
      = findings.map (fun f => m1 f || m2 f) := by
  induction findings with
  | nil => rfl
  | cons f fs ih => simp [ih]

/-! ### Concrete stand-ins for the stdlib time functions, used in closed
evaluations. -/

/-- Recognises one future, one recent-past and one far-past date relative to
`testNow`. -/
def testParseTs : String → Option Int := fun s =>
  if s = "2099-01-01" then some 1000
  else if s = "2020-01-01" then some (-1000)
  else if s = "2000-01-01" then some (-1000000000)
  else none

/-- A concrete stand-in for `Format(time.RFC3339)`. -/
def testFmtTs : Int → String := fun t =>
  if t = -1000 then "2020-01-01T00:00:00Z" else "ts"

/-- The run instant used in closed evaluations. -/
def testNow : Int := 0

/-! ### Claim theorems. -/

/-- C2: for a rule whose metadata has default severity `warn`, with a global
rule-ID-keyed override to `error` and a path-scoped override entry to
`info`, `Config.Resolve` returns severity `info` for any file path the
(non-empty) pattern matches and `error` for any file path the pattern does
not match; and path-scoped entries are applied in list order, so a later
matching entry wins over an earlier one. -/
theorem claim_C2_resolve_override_order (meta : RuleMetadata) (pat patB path : String)
    (hsev : meta.defaultSeverity = "warn") (hpat : pat ≠ "") (hpatB : patB ≠ "") :
    (filepathMatch pat path = .ok true →
      Config.Resolve
        { rules := [(meta.ID, { severity := "error" })],
          overrides := [{ pattern := pat, rules := [(meta.ID, { severity := "info" })] }] }
        meta path
        = .ok { metadata := meta, severity := "info", enabled := meta.enabled })
    ∧ (filepathMatch pat path = .ok false →
      Config.Resolve
        { rules := [(meta.ID, { severity := "error" })],
          overrides := [{ pattern := pat, rules := [(meta.ID, { severity := "info" })] }] }
        meta path
        = .ok { metadata := meta, severity := "error", enabled := meta.enabled })
    ∧ (filepathMatch pat path = .ok true → filepathMatch patB path = .ok true →
      Config.Resolve
        { rules := [(meta.ID, { severity := "error" })],
          overrides := [{ pattern := pat, rules := [(meta.ID, { severity := "info" })] },
                        { pattern := patB, rules := [(meta.ID, { severity := "warn" })] }] }
        meta path
        = .ok { metadata := meta, severity := "warn", enabled := meta.enabled }) := by
  refine ⟨fun hm => ?_, fun hm => ?_, fun hm1 hm2 => ?_⟩ <;>
    simp [Config.Resolve, resolveOverrides, applyRuleConfig, ParseSeverity, lookupKey,
      hpat, hpatB, trimSpace, lowerStr, *]

/-- Witness for C2: rule `AR001` defaulting to `warn`, pattern
`apps/*.yaml`; the path `apps/app.yaml` matches (severity `info`), the path
`other/app.yaml` does not (severity `error`). -/
theorem claim_C2_witness :
    Config.Resolve
      { rules := [("AR001", { severity := "error" })],
        overrides := [{ pattern := "apps/*.yaml",
                        rules := [("AR001", { severity := "info" })] }] }
      { ID := "AR001", defaultSeverity := "warn", enabled := true } "apps/app.yaml"
      = .ok { metadata := { ID := "AR001", defaultSeverity := "warn", enabled := true },
              severity := "info", enabled := true }
    ∧ Config.Resolve
      { rules := [("AR001", { severity := "error" })],
        overrides := [{ pattern := "apps/*.yaml",
                        rules := [("AR001", { severity := "info" })] }] }
      { ID := "AR001", defaultSeverity := "warn", enabled := true } "other/app.yaml"
      = .ok { metadata := { ID := "AR001", defaultSeverity := "warn", enabled := true },
              severity := "error", enabled := true } := by
  have h1 := claim_C2_resolve_override_order
    { ID := "AR001", defaultSeverity := "warn", enabled := true }
    "apps/*.yaml" "apps/*.yaml" "apps/app.yaml" rfl (by decide) (by decide)
  have h2 := claim_C2_resolve_override_order
    { ID := "AR001", defaultSeverity := "warn", enabled := true }
    "apps/*.yaml" "apps/*.yaml" "other/app.yaml" rfl (by decide) (by decide)
  constructor
  · exact h1.1 (by
      simp [filepathMatch, matchLoop, scanChunk, dropStars, splitChunk, matchChunk,
        chunkLoop, starLoop, validateRest, getEsc, getHi])
  · exact h2.2.1 (by
      simp [filepathMatch, matchLoop, scanChunk, dropStars, splitChunk, matchChunk,
        chunkLoop, starLoop, validateRest, getEsc, getHi])

/-- C10: `Waiver.Matches` holds exactly when the finding's rule ID equals the
waiver's rule case-insensitively after trimming both and the non-empty
trimmed file pattern matches the path under `filepath.Match`; a
syntactically invalid pattern is treated as a non-match rather than an
error; and the glob `*` never matches across a path separator. -/
theorem claim_C10_waiver_matches (w : Waiver) (path rid : String) :
    (w.Matches path rid = true ↔
      (lowerStr (trimSpace rid) = lowerStr (trimSpace w.rule)
        ∧ trimSpace w.file ≠ ""
        ∧ matchDropErr (trimSpace w.file) path = true))
    ∧ (filepathMatch (trimSpace w.file) path = .error () → w.Matches path rid = false)
    ∧ (trimSpace w.file = "*" → path.data.contains '/' = true →
        w.Matches path rid = false) := by
  refine ⟨?_, ?_, ?_⟩
  · unfold Waiver.Matches
    by_cases h1 : lowerStr (trimSpace rid) = lowerStr (trimSpace w.rule) <;>
      by_cases h2 : trimSpace w.file = "" <;>
        simp [h1, h2]
  · intro herr
    have hm : matchDropErr (trimSpace w.file) path = false := by
      unfold matchDropErr
      rw [herr]
    unfold Waiver.Matches
    by_cases h1 : lowerStr (trimSpace rid) = lowerStr (trimSpace w.rule) <;>
      by_cases h2 : trimSpace w.file = "" <;>
        simp [h1, h2, hm]
  · intro hstar hslash
    have hslash2 : '/' ∈ path.data := by simpa using hslash
    have hm : matchDropErr "*" path = false := by
      unfold matchDropErr filepathMatch
      simp [matchLoop, scanChunk, dropStars, splitChunk, hslash, hslash2]
    unfold Waiver.Matches
    by_cases h1 : lowerStr (trimSpace rid) = lowerStr (trimSpace w.rule)
    · simp [h1, hstar, hm]
    · simp [h1]

/-- Witness for C10: a waiver on `AR001` with pattern `apps/*.yaml` matches
the finding (`apps/app.yaml`, `ar001`); and a `*` waiver does not match a
path containing a separator. -/
theorem claim_C10_witness :
    Waiver.Matches { rule := "AR001", file := "apps/*.yaml" } "apps/app.yaml" "ar001" = true
    ∧ Waiver.Matches { rule := "AR001", file := "*" } "apps/app.yaml" "AR001" = false := by
  constructor
  · exact (claim_C10_waiver_matches { rule := "AR001", file := "apps/*.yaml" }
      "apps/app.yaml" "ar001").1.mpr
      ⟨by decide, by decide, by
        simp [matchDropErr, filepathMatch, matchLoop, scanChunk, dropStars, splitChunk,
          matchChunk, chunkLoop, starLoop, validateRest, getEsc, getHi, trimSpace]⟩
  · exact (claim_C10_waiver_matches { rule := "AR001", file := "*" }
      "apps/app.yaml" "AR001").2.2 (by decide) (by decide)

/-- C3: a configuration whose only waiver has an expiry in the past
suppresses nothing (the filtered findings are unchanged) and emits exactly
one `WAIVER_EXPIRED` diagnostic per finding the waiver matches. -/
theorem claim_C3_expired_waiver_reinstates (parseTs : String → Option Int)
    (fmtTs : Int → String) (now t : Int) (w : Waiver) (cfg : Config)
    (findings : List Finding) (ruleIndex : List (String × RuleMetadata))
    (hcfg : cfg.waivers = [w])
    (hexp : w.ExpiryTime parseTs = .ok t) (ht : t < now) :
    applyWaivers parseTs fmtTs now cfg findings ruleIndex
      = (findings,
         (findings.filter (fun f => w.Matches f.filePath f.ruleID)).map
           (expiredDiagnostic fmtTs t w)) := by
  unfold applyWaivers
  rw [hcfg]
  have henum : List.enum [w] = [(0, w)] := rfl
  rw [henum]
  simp only [List.isEmpty_cons, Bool.false_eq_true, if_false, List.foldl_cons,
    List.foldl_nil]
  simp only [waiverStep, hexp]
  rw [waiverScan_expired fmtTs w ht findings]
  simp [filterMap_zip_replicate_false]

/-- Witness for C3: the expired waiver (expiry 2020, run instant 0) leaves
the matching finding in place and emits one `WAIVER_EXPIRED` diagnostic. -/
theorem claim_C3_witness :
    applyWaivers testParseTs testFmtTs testNow
      { waivers := [{ rule := "AR001", file := "apps/*.yaml", reason := "migration",
                      expires := "2020-01-01" }] }
      [{ ruleID := "AR001", filePath := "apps/app.yaml", severity := "error" }] []
      = ([{ ruleID := "AR001", filePath := "apps/app.yaml", severity := "error" }],
         [expiredDiagnostic testFmtTs (-1000)
            { rule := "AR001", file := "apps/*.yaml", reason := "migration",
              expires := "2020-01-01" }
            { ruleID := "AR001", filePath := "apps/app.yaml", severity := "error" }]) := by
  rw [claim_C3_expired_waiver_reinstates testParseTs testFmtTs testNow (-1000)
    { rule := "AR001", file := "apps/*.yaml", reason := "migration",
      expires := "2020-01-01" }
    _ _ _ rfl rfl (by decide)]
  simp only [List.filter]
  congr 1
  simp [Waiver.Matches, matchDropErr, filepathMatch, matchLoop, scanChunk, dropStars,
    splitChunk, matchChunk, chunkLoop, starLoop, validateRest, getEsc, getHi,
    trimSpace, lowerStr]

/-- C9: with exactly two valid, unexpired waivers configured, filtering
removes each finding matched by either waiver exactly once (the survivors
are the findings matching neither) and emits no diagnostics at all — in
particular a finding matched by both waivers is suppressed once, with no
duplicate suppression and no overlap diagnostic. -/
theorem claim_C9_overlapping_waivers (parseTs : String → Option Int)
    (fmtTs : Int → String) (now t1 t2 : Int) (w1 w2 : Waiver) (cfg : Config)
    (findings : List Finding) (ruleIndex : List (String × RuleMetadata))
    (hcfg : cfg.waivers = [w1, w2])
    (h1 : w1.ExpiryTime parseTs = .ok t1) (hn1 : ¬ t1 < now)
    (hr1 : ¬ trimSpace w1.reason = "")
    (h2 : w2.ExpiryTime parseTs = .ok t2) (hn2 : ¬ t2 < now)
    (hr2 : ¬ trimSpace w2.reason = "") :
    applyWaivers parseTs fmtTs now cfg findings ruleIndex
      = (findings.filter (fun f =>
          !(w1.Matches f.filePath f.ruleID || w2.Matches f.filePath f.ruleID)), []) := by
  unfold applyWaivers
  rw [hcfg]
  have henum : List.enum [w1, w2] = [(0, w1), (1, w2)] := rfl
  rw [henum]
  simp only [List.isEmpty_cons, Bool.false_eq_true, if_false, List.foldl_cons,
    List.foldl_nil]
  simp only [waiverStep, h1, h2]
  rw [waiverScan_valid fmtTs w1 hn1 hr1 findings (List.replicate findings.length false)
    (by simp)]
  rw [zipWith_or_replicate_false]
  rw [waiverScan_valid fmtTs w2 hn2 hr2 findings (findings.map _) (by simp)]
  rw [zipWith_or_map]
  simp [filterMap_zip_map]

/-- Witness for C9: two valid unexpired waivers both matching the single
finding suppress it exactly once with no diagnostics. -/
theorem claim_C9_witness :
    applyWaivers testParseTs testFmtTs testNow
      { waivers := [{ rule := "AR001", file := "apps/*.yaml", reason := "one",
                      expires := "2099-01-01" },
                    { rule := "ar001", file := "apps/app.yaml", reason := "two",
                      expires := "2099-01-01" }] }
      [{ ruleID := "AR001", filePath := "apps/app.yaml", severity := "error" }] []
      = ([], []) := by
  rw [claim_C9_overlapping_waivers testParseTs testFmtTs testNow 1000 1000
    { rule := "AR001", file := "apps/*.yaml", reason := "one", expires := "2099-01-01" }
    { rule := "ar001", file := "apps/app.yaml", reason := "two", expires := "2099-01-01" }
    _ _ _ rfl rfl (by decide) (by decide) rfl (by decide) (by decide)]
  simp only [List.filter]
  have hm : Waiver.Matches
      { rule := "AR001", file := "apps/*.yaml", reason := "one", expires := "2099-01-01" }
      "apps/app.yaml" "AR001" = true := by
    simp [Waiver.Matches, matchDropErr, filepathMatch, matchLoop, scanChunk, dropStars,
      splitChunk, matchChunk, chunkLoop, starLoop, validateRest, getEsc, getHi,
      trimSpace, lowerStr]
  simp [hm]

/-- C4 (behaviour at the failing input): a waiver missing its rule ID —
invalid by the code's own `Waiver.Validate` — matches nothing and suppresses
nothing, but `applyWaivers` emits no `WAIVER_INVALID` diagnostic for it:
the invalid waiver is silently ignored, while the claim (and the
`WAIVER_INVALID` metadata description, which lists a missing rule) requires
it to surface in the report. -/
theorem claim_C4_missing_rule_silently_ignored :
    applyWaivers testParseTs testFmtTs testNow
      { waivers := [{ rule := "", file := "*.yaml", reason := "migration",
                      expires := "2099-01-01" }] }
      [{ ruleID := "AR001", filePath := "app.yaml", severity := "error" }] []
      = ([{ ruleID := "AR001", filePath := "app.yaml", severity := "error" }], [])
    ∧ Waiver.Validate testParseTs
        { rule := "", file := "*.yaml", reason := "migration", expires := "2099-01-01" }
      = .error "rule is required" := by
  constructor
  · rfl
  · rfl

/-- C6: a policy module whose metadata object lacks the key `id` fails at
load time with `metadata.id is required`; and for a loaded module that
declares an `applies` entry point, if `applies` evaluates (without error)
to a result set containing no boolean-true expression — in particular to
false — for a document, then the module's `Check` contributes zero findings
for that document whatever its `deny` query is, so `deny` is never
evaluated. -/
theorem claim_C6_plugin_contract :
    (∀ (source : String) (fields : List (String × GoVal)) (exprs : List GoVal)
       (rs : List (List GoVal)) (deny : GoVal → Except String ResultSet)
       (applies : Option (GoVal → Except String ResultSet)),
       lookupKey fields "id" = none →
       loadModule source ((GoVal.obj fields :: exprs) :: rs) deny applies
         = .error "metadata.id is required")
    ∧ (∀ (p : RegoPlugin) (q : GoVal → Except String ResultSet) (m : Manifest)
         (rs : ResultSet),
        p.appliesQuery = some q →
        q (manifestToInput m) = .ok rs →
        (∀ exprs ∈ rs, ∀ v ∈ exprs, v ≠ GoVal.bool true) →
        p.check m = .ok []) := by
  constructor
  · intro source fields exprs rs deny applies hid
    unfold loadModule evaluateMetadata objStr
    simp [hid]
  · intro p q m rs hq hrs hfalse
    unfold RegoPlugin.check
    simp only [hq, hrs]
    by_cases hempty : rs.isEmpty = true
    · simp [hempty]
    · have hmatched : (rs.any (fun exprs => exprs.any fun v =>
          match v with
          | .bool b => b
          | _ => false)) = false := by
        rw [List.any_eq_false]
        intro exprs hexprs
        rw [Bool.not_eq_true, List.any_eq_false]
        intro v hv
        have hne := hfalse exprs hexprs v hv
        match v with
        | .bool b =>
          simp only [Bool.not_eq_true]
          cases b
          · rfl
          · exact absurd rfl hne
        | .null => simp
        | .str s => simp
        | .num n => simp
        | .list items => simp
        | .obj fields => simp
      simp [hempty, hmatched]

/-- The module used by the C6 witness: its `applies` query returns false
while its `deny` query would produce a violation object. -/
def testAppliesFalsePlugin : RegoPlugin :=
  { source := "policy.rego"
    meta := { ID := "RG100", defaultSeverity := "warn", enabled := true }
    denyQuery := fun _ => .ok [[GoVal.obj [("message", GoVal.str "boom")]]]
    appliesQuery := some (fun _ => .ok [[GoVal.bool false]]) }

/-- Witness for C6: a metadata object without `id` fails the load, and the
module whose `applies` is false contributes no findings though its `deny`
would fire. -/
theorem claim_C6_witness :
    loadModule "policy.rego" [[GoVal.obj [("description", GoVal.str "d")]]]
      (fun _ => .ok []) none = .error "metadata.id is required"
    ∧ testAppliesFalsePlugin.check { kind := "Application", name := "demo" } = .ok [] := by
  constructor
  · exact claim_C6_plugin_contract.1 "policy.rego" [("description", GoVal.str "d")] [] []
      (fun _ => .ok []) none rfl
  · refine claim_C6_plugin_contract.2 testAppliesFalsePlugin _
      { kind := "Application", name := "demo" } [[GoVal.bool false]] rfl rfl ?_
    intro exprs hexprs v hv
    simp only [List.mem_singleton] at hexprs
    subst hexprs
    simp only [List.mem_singleton] at hv
    subst hv
    intro hcon
    injection hcon with hb
    cases hb

/-! ### Baseline filtering characterisation (claim C7). -/

/-- The `BASELINE_AGED` diagnostics one finding contributes in
`Baseline.Filter` (empty unless the finding is suppressed by an entry whose
parsed introduced date is older than the active threshold). -/
def agedDiags (parseDate : String → Option Int) (now : Int) (bl : Baseline)
    (agingDays : Int) (f : Finding) : List Finding :=
  match lookupKey bl.index (baselineKey f.filePath f.ruleID) with
  | none => []
  | some entry =>
    if agingDays > 0 then
      match parseDate entry.introduced with
      | some d => if d < now - agingDays * 86400 then [agedFinding f agingDays] else []
      | none => []
    else []

theorem baselineFold_spec (pd : String → Option Int) (now : Int) (bl : Baseline)
    (days : Int) :
    ∀ (G : List Finding) (acc : List Finding × List Finding × List Finding),
      G.foldl (baselineStep pd now bl days) acc
        = (acc.1 ++ G.filter (fun g =>
            (lookupKey bl.index (baselineKey g.filePath g.ruleID)).isNone),
           acc.2.1 ++ G.flatMap (agedDiags pd now bl days),
           acc.2.2 ++ G.filter (fun g =>
            (lookupKey bl.index (baselineKey g.filePath g.ruleID)).isSome)) := by
  intro G
  induction G with
  | nil => intro acc; simp
  | cons g G ih =>
    intro acc
    rw [List.foldl_cons, ih]
    cases hl : lookupKey bl.index (baselineKey g.filePath g.ruleID) with
    | none =>
      simp [baselineStep, hl, agedDiags, List.filter]
    | some entry =>
      simp [baselineStep, hl, agedDiags, List.filter]

theorem baselineFilter_spec (pd : String → Option Int) (now : Int) (bl : Baseline)
    (days : Int) (G : List Finding) :
    baselineFilter pd now (some bl) G days
      = (G.filter (fun g =>
          (lookupKey bl.index (baselineKey g.filePath g.ruleID)).isNone),
         G.flatMap (agedDiags pd now bl days),
         G.filter (fun g =>
          (lookupKey bl.index (baselineKey g.filePath g.ruleID)).isSome)) := by
  unfold baselineFilter
  by_cases hempty : bl.index.isEmpty = true
  · have hnil : bl.index = [] := by
      cases hix : bl.index
      · rfl
      · rw [hix] at hempty; simp at hempty
    have hflat : ∀ (H : List Finding), (H.flatMap (agedDiags pd now bl days)) = [] := by
      intro H
      induction H with
      | nil => rfl
      | cons h hs ihh => simp [agedDiags, hnil, lookupKey, ihh]
    simp [hempty, hnil, lookupKey, hflat]
  · simp [hempty, baselineFold_spec pd now bl days G ([], [], [])]

theorem bool_eq_decide {b : Bool} {P : Prop} [Decidable P] (h : b = true ↔ P) :
    b = decide P := by
  cases hb : b
  · have hnp : ¬ P := fun hp => by
      rw [h.mpr hp] at hb
      cases hb
    simp [hnp]
  · simp [h.mp hb]

theorem lookupKey_isSome_iff {α : Type} :
    ∀ (l : List (String × α)) (k : String),
      (lookupKey l k).isSome = true ↔ ∃ p ∈ l, p.1 = k := by
  intro l k
  induction l with
  | nil => simp [lookupKey]
  | cons head rest ih =>
    obtain ⟨k3, v3⟩ := head
    by_cases hp : k3 = k
    · simp [lookupKey, hp]
    · simp only [lookupKey, hp, if_false, ih, List.mem_cons]
      aesop

theorem mem_insertKey_key_iff {α : Type} :
    ∀ (l : List (String × α)) (k : String) (v : α) (k2 : String),
      (∃ p ∈ insertKey l k v, p.1 = k2) ↔ k2 = k ∨ ∃ p ∈ l, p.1 = k2 := by
  intro l k v k2
  induction l with
  | nil =>
    simp only [insertKey, List.mem_singleton]
    aesop
  | cons head rest ih =>
    obtain ⟨k3, v3⟩ := head
    by_cases hq : k3 = k
    · simp only [insertKey, hq, if_true, List.mem_cons]
      aesop
    · simp only [insertKey, hq, if_false, List.mem_cons]
      constructor
      · intro hh
        obtain ⟨p, hp, hpk⟩ := hh
        rcases hp with rfl | hp2
        · exact .inr ⟨(k3, v3), .inl rfl, hpk⟩
        · rcases ih.mp ⟨p, hp2, hpk⟩ with h | ⟨p2, hp3, hp4⟩
          · exact .inl h
          · exact .inr ⟨p2, .inr hp3, hp4⟩
      · intro hh
        rcases hh with rfl | ⟨p, hp, hpk⟩
        · obtain ⟨p, hp, hpk⟩ := ih.mpr (.inl rfl)
          exact ⟨p, .inr hp, hpk⟩
        · rcases hp with rfl | hp2
          · exact ⟨(k3, v3), .inl rfl, hpk⟩
          · obtain ⟨p2, hp3, hp4⟩ := ih.mpr (.inr ⟨p, hp2, hpk⟩)
            exact ⟨p2, .inr hp3, hp4⟩

theorem mkBaseline_key_iff (entries : List BaselineEntry) (k : String) :
    (lookupKey (mkBaseline entries).index k).isSome = true
      ↔ ∃ e ∈ entries, baselineKey e.file e.rule = k := by
  have aux : ∀ (es : List BaselineEntry) (ix : List (String × BaselineEntry)),
      (∃ p ∈ es.foldl (fun ix e => insertKey ix (baselineKey e.file e.rule) e) ix, p.1 = k)
        ↔ (∃ e ∈ es, baselineKey e.file e.rule = k) ∨ ∃ p ∈ ix, p.1 = k := by
    intro es
    induction es with
    | nil => simp
    | cons e es ihe =>
      intro ix
      rw [List.foldl_cons, ihe, mem_insertKey_key_iff]
      simp only [List.mem_cons]
      constructor
      · intro hh
        rcases hh with h | h | h
        · obtain ⟨e2, he2, hk2⟩ := h
          exact .inl ⟨e2, .inr he2, hk2⟩
        · exact .inl ⟨e, .inl rfl, h.symm⟩
        · exact .inr h
      · intro hh
        rcases hh with ⟨e2, he2, hk2⟩ | h
        · rcases he2 with rfl | he3
          · exact .inr (.inl hk2.symm)
          · exact .inl ⟨e2, he3, hk2⟩
        · exact .inr (.inr h)
  rw [lookupKey_isSome_iff]
  unfold mkBaseline
  rw [aux entries []]
  simp

theorem writeBaseline_key_iff (nowStr : String) (fs : List Finding) (k : String) :
    (∃ e ∈ writeBaselineEntries nowStr fs, baselineKey e.file e.rule = k)
      ↔ ∃ f ∈ fs, baselineKey f.filePath f.ruleID = k := by
  have aux : ∀ (fs : List Finding) (st : List BaselineEntry × List String),
      (∀ k2, st.2.contains k2 = true ↔ ∃ e ∈ st.1, baselineKey e.file e.rule = k2) →
      ∀ k2, (∃ e ∈ (fs.foldl (writeBaselineStep nowStr) st).1, baselineKey e.file e.rule = k2)
        ↔ (∃ e ∈ st.1, baselineKey e.file e.rule = k2)
          ∨ ∃ f ∈ fs, baselineKey f.filePath f.ruleID = k2 := by
    intro fs
    induction fs with
    | nil => intro st hinv k2; simp
    | cons f fs ihf =>
      intro st hinv k2
      rw [List.foldl_cons]
      by_cases hseen : st.2.contains (baselineKey f.filePath f.ruleID) = true
      · have hstep : writeBaselineStep nowStr st f = st := by
          unfold writeBaselineStep
          simp only [hseen, if_true]
        rw [hstep, ihf st hinv k2]
        have hf := (hinv (baselineKey f.filePath f.ruleID)).mp hseen
        simp only [List.mem_cons]
        constructor
        · intro hh
          rcases hh with h | ⟨f2, h2, h3⟩
          · exact .inl h
          · exact .inr ⟨f2, .inr h2, h3⟩
        · intro hh
          rcases hh with h | ⟨f2, rfl | h2, h3⟩
          · exact .inl h
          · obtain ⟨e, he, hke⟩ := hf
            exact .inl ⟨e, he, hke.trans h3⟩
          · exact .inr ⟨f2, h2, h3⟩
      · have hfal := bool_eq_false_of_not hseen
        have hstep : writeBaselineStep nowStr st f
            = (st.1 ++ [writeEntry nowStr f],
               st.2 ++ [baselineKey f.filePath f.ruleID]) := by
          unfold writeBaselineStep
          simp only [hfal, Bool.false_eq_true, if_false]
        rw [hstep]
        have hinv2 : ∀ k3, (st.2 ++ [baselineKey f.filePath f.ruleID]).contains k3 = true
            ↔ ∃ e ∈ st.1 ++ [writeEntry nowStr f], baselineKey e.file e.rule = k3 := by
          intro k3
          have hbase := hinv k3
          simp only [List.mem_append, List.mem_singleton] at *
          constructor
          · intro hh
            rcases (by simpa using hh : k3 ∈ st.2 ∨ k3 = baselineKey f.filePath f.ruleID)
              with h | h
            · obtain ⟨e, he, hke⟩ := hbase.mp (by simpa using h)
              exact ⟨e, .inl he, hke⟩
            · exact ⟨writeEntry nowStr f, .inr rfl, h.symm⟩
          · intro hh
            obtain ⟨e, he, hke⟩ := hh
            rcases he with he | rfl
            · have := hbase.mpr ⟨e, he, hke⟩
              simpa using .inl (by simpa using this : k3 ∈ st.2)
            · simpa using .inr hke.symm
        rw [ihf _ hinv2 k2]
        simp only [List.mem_append, List.mem_cons, List.mem_singleton,
          List.not_mem_nil, or_false]
        constructor
        · intro hh
          rcases hh with ⟨e, he | rfl, hke⟩ | ⟨f2, h2, h3⟩
          · exact .inl ⟨e, he, hke⟩
          · exact .inr ⟨f, .inl rfl, hke⟩
          · exact .inr ⟨f2, .inr h2, h3⟩
        · intro hh
          rcases hh with ⟨e, he, hke⟩ | ⟨f2, rfl | h2, h3⟩
          · exact .inl ⟨e, .inl he, hke⟩
          · exact .inl ⟨writeEntry nowStr f2, .inr rfl, h3⟩
          · exact .inr ⟨f2, h2, h3⟩
  unfold writeBaselineEntries
  rw [aux fs ([], []) (by intro k2; simp) k]
  simp

theorem lookupKey_mem {α : Type} :
    ∀ (l : List (String × α)) (k : String) (v : α),
      lookupKey l k = some v → (k, v) ∈ l := by
  intro l
  induction l with
  | nil => intro k v h; cases h
  | cons head rest ih =>
    intro k v h
    obtain ⟨k2, v2⟩ := head
    by_cases hk : k2 = k
    · subst hk
      simp only [lookupKey, if_true] at h
      cases h
      exact .head _
    · simp only [lookupKey, hk, if_false] at h
      exact .tail _ (ih k v h)

theorem mem_insertKey {α : Type} :
    ∀ (l : List (String × α)) (k : String) (v : α) (p : String × α),
      p ∈ insertKey l k v → p = (k, v) ∨ p ∈ l := by
  intro l k v
  induction l with
  | nil =>
    intro p hp
    simp only [insertKey, List.mem_singleton] at hp
    exact .inl hp
  | cons head rest ih =>
    intro p hp
    obtain ⟨k2, v2⟩ := head
    by_cases hk : k2 = k
    · simp only [insertKey, hk, if_true, List.mem_cons] at hp
      rcases hp with rfl | hp2
      · exact .inl rfl
      · exact .inr (.tail _ hp2)
    · simp only [insertKey, hk, if_false, List.mem_cons] at hp
      rcases hp with rfl | hp2
      · exact .inr (.head _)
      · rcases ih p hp2 with h | h
        · exact .inl h
        · exact .inr (.tail _ h)

theorem mem_mkBaseline_index (entries : List BaselineEntry)
    (p : String × BaselineEntry) :
    p ∈ (mkBaseline entries).index → p.2 ∈ entries := by
  have aux : ∀ (es : List BaselineEntry) (ix : List (String × BaselineEntry)),
      p ∈ es.foldl (fun ix e => insertKey ix (baselineKey e.file e.rule) e) ix →
        p.2 ∈ es ∨ p ∈ ix := by
    intro es
    induction es with
    | nil => intro ix h; exact .inr h
    | cons e es ihe =>
      intro ix h
      rw [List.foldl_cons] at h
      rcases ihe _ h with h2 | h2
      · exact .inl (.tail _ h2)
      · rcases mem_insertKey _ _ _ _ h2 with rfl | h3
        · exact .inl (.head _)
        · exact .inr h3
  intro h
  rcases aux entries [] h with h | h
  · exact h
  · cases h

theorem writeBaselineEntries_introduced (nowStr : String) (fs : List Finding) :
    ∀ e ∈ writeBaselineEntries nowStr fs, e.introduced = nowStr := by
  have aux : ∀ (fs : List Finding) (st : List BaselineEntry × List String),
      (∀ e ∈ st.1, e.introduced = nowStr) →
      ∀ e ∈ (fs.foldl (writeBaselineStep nowStr) st).1, e.introduced = nowStr := by
    intro fs
    induction fs with
    | nil => intro st hinv; exact hinv
    | cons f fs ihf =>
      intro st hinv
      rw [List.foldl_cons]
      by_cases hseen : st.2.contains (baselineKey f.filePath f.ruleID) = true
      · have hstep : writeBaselineStep nowStr st f = st := by
          unfold writeBaselineStep
          simp only [hseen, if_true]
        rw [hstep]
        exact ihf st hinv
      · have hstep : writeBaselineStep nowStr st f
            = (st.1 ++ [writeEntry nowStr f],
               st.2 ++ [baselineKey f.filePath f.ruleID]) := by
          unfold writeBaselineStep
          simp only [bool_eq_false_of_not hseen, Bool.false_eq_true, if_false]
        rw [hstep]
        refine ihf _ ?_
        intro e he
        rcases List.mem_append.mp he with h | h
        · exact hinv e h
        · rw [List.mem_singleton.mp h]
          rfl
  unfold writeBaselineEntries
  exact aux fs ([], []) (by intro e he; cases he)

theorem flatMap_nil_of {α β : Type} (f : α → List β) (h : ∀ a, f a = []) :
    ∀ l : List α, l.flatMap f = [] := by
  intro l
  induction l with
  | nil => rfl
  | cons a l ih => simp [h a, ih]

theorem flatMap_congr_fun {α β : Type} (f g : α → List β) (h : ∀ a, f a = g a) :
    ∀ l : List α, l.flatMap f = l.flatMap g := by
  intro l
  induction l with
  | nil => rfl
  | cons a l ih => simp [h a, ih]

theorem flatMap_ite_singleton {α β : Type} (p : α → Bool) (h : α → β) :
    ∀ l : List α,
      l.flatMap (fun a => if p a then [h a] else []) = (l.filter p).map h := by
  intro l
  induction l with
  | nil => rfl
  | cons a l ih => by_cases hp : p a <;> simp [hp, ih, List.filter_cons]

/-- C7: loading the baseline written from a report's findings and re-filtering
characterises the split exactly: the kept findings are those whose baseline
key — `lower(trim(file)) ++ "|" ++ lower(trim(rule))`, i.e. the (file, rule)
pair compared case-insensitively after trimming whitespace — matches no
written finding, the suppressed list is exactly the matching findings (in
order), and the `BASELINE_AGED` diagnostics are exactly one per suppressed
finding when the aging threshold is positive and the written date parses to
an instant older than `now - days·24h`, and none otherwise.  In particular an
immediate re-run on the same findings keeps nothing and suppresses every
finding.  `pd` stands for the stdlib `time.Parse("2006-01-02", ·)`. -/
theorem claim_C7_baseline_roundtrip (pd : String → Option Int) (now : Int)
    (nowStr : String) (days : Int) (fs G : List Finding) :
    (baselineFilter pd now (some (mkBaseline (writeBaselineEntries nowStr fs))) G days
      = (G.filter (fun g => decide (¬ ∃ f ∈ fs,
            baselineKey f.filePath f.ruleID = baselineKey g.filePath g.ruleID)),
         (if days > 0 then
            match pd nowStr with
            | some d =>
              if d < now - days * 86400 then
                (G.filter (fun g => decide (∃ f ∈ fs,
                    baselineKey f.filePath f.ruleID
                      = baselineKey g.filePath g.ruleID))).map
                  (fun g => agedFinding g days)
              else []
            | none => []
          else []),
         G.filter (fun g => decide (∃ f ∈ fs,
            baselineKey f.filePath f.ruleID = baselineKey g.filePath g.ruleID))))
    ∧ (baselineFilter pd now (some (mkBaseline (writeBaselineEntries nowStr fs)))
        fs days).1 = []
    ∧ (baselineFilter pd now (some (mkBaseline (writeBaselineEntries nowStr fs)))
        fs days).2.2 = fs := by
  have hsome : ∀ (k : String),
      (lookupKey (mkBaseline (writeBaselineEntries nowStr fs)).index k).isSome = true
        ↔ ∃ f ∈ fs, baselineKey f.filePath f.ruleID = k := by
    intro k
    exact (mkBaseline_key_iff _ k).trans (writeBaseline_key_iff nowStr fs k)
  have hsomeB : ∀ g : Finding,
      (lookupKey (mkBaseline (writeBaselineEntries nowStr fs)).index
          (baselineKey g.filePath g.ruleID)).isSome
        = decide (∃ f ∈ fs,
            baselineKey f.filePath f.ruleID = baselineKey g.filePath g.ruleID) :=
    fun g => bool_eq_decide (hsome _)
  have hnoneB : ∀ g : Finding,
      (lookupKey (mkBaseline (writeBaselineEntries nowStr fs)).index
          (baselineKey g.filePath g.ruleID)).isNone
        = decide (¬ ∃ f ∈ fs,
            baselineKey f.filePath f.ruleID = baselineKey g.filePath g.ruleID) := by
    intro g
    apply bool_eq_decide
    rw [Option.isNone_iff_eq_none, ← Option.not_isSome_iff_eq_none]
    exact not_congr (hsome _)
  have hintro : ∀ (k : String) (e : BaselineEntry),
      lookupKey (mkBaseline (writeBaselineEntries nowStr fs)).index k = some e →
        e.introduced = nowStr := by
    intro k e hle
    exact writeBaselineEntries_introduced nowStr fs e
      (mem_mkBaseline_index _ (k, e) (lookupKey_mem _ _ _ hle))
  have hone : ∀ g : Finding,
      agedDiags pd now (mkBaseline (writeBaselineEntries nowStr fs)) days g =
        if (lookupKey (mkBaseline (writeBaselineEntries nowStr fs)).index
            (baselineKey g.filePath g.ruleID)).isSome then
          (if days > 0 then
             match pd nowStr with
             | some d => if d < now - days * 86400 then [agedFinding g days] else []
             | none => []
           else [])
        else [] := by
    intro g
    unfold agedDiags
    cases hl : lookupKey (mkBaseline (writeBaselineEntries nowStr fs)).index
        (baselineKey g.filePath g.ruleID) with
    | none => simp
    | some entry =>
      simp [hintro _ _ hl]
  have hflat : ∀ H : List Finding,
      H.flatMap (agedDiags pd now (mkBaseline (writeBaselineEntries nowStr fs)) days)
        = (if days > 0 then
            match pd nowStr with
            | some d =>
              if d < now - days * 86400 then
                (H.filter (fun g => decide (∃ f ∈ fs,
                    baselineKey f.filePath f.ruleID
                      = baselineKey g.filePath g.ruleID))).map
                  (fun g => agedFinding g days)
              else []
            | none => []
          else []) := by
    intro H
    by_cases hd : days > 0
    · cases hpd : pd nowStr with
      | some d =>
        by_cases hlt : d < now - days * 86400
        · simp only [hd, if_true, hpd, hlt]
          rw [flatMap_congr_fun _
            (fun g => if (lookupKey (mkBaseline (writeBaselineEntries nowStr fs)).index
                (baselineKey g.filePath g.ruleID)).isSome
              then [agedFinding g days] else [])
            (by intro g; rw [hone g]; simp [hd, hpd, hlt]) H]
          rw [flatMap_ite_singleton]
          rw [List.filter_congr (fun g _ => hsomeB g)]
        · simp only [hd, if_true, hpd, hlt, if_false]
          exact flatMap_nil_of _ (fun g => by rw [hone g]; simp [hd, hpd, hlt]) H
      | none =>
        simp only [hd, if_true, hpd]
        exact flatMap_nil_of _ (fun g => by rw [hone g]; simp [hd, hpd]) H
    · simp only [hd, if_false]
      exact flatMap_nil_of _ (fun g => by rw [hone g]; simp [hd]) H
  have hgen : ∀ H : List Finding,
      baselineFilter pd now (some (mkBaseline (writeBaselineEntries nowStr fs))) H days
        = (H.filter (fun g => decide (¬ ∃ f ∈ fs,
              baselineKey f.filePath f.ruleID = baselineKey g.filePath g.ruleID)),
           (if days > 0 then
              match pd nowStr with
              | some d =>
                if d < now - days * 86400 then
                  (H.filter (fun g => decide (∃ f ∈ fs,
                      baselineKey f.filePath f.ruleID
                        = baselineKey g.filePath g.ruleID))).map
                    (fun g => agedFinding g days)
                else []
              | none => []
            else []),
           H.filter (fun g => decide (∃ f ∈ fs,
              baselineKey f.filePath f.ruleID = baselineKey g.filePath g.ruleID))) := by
    intro H
    rw [baselineFilter_spec]
    rw [show (H.filter (fun g =>
        (lookupKey (mkBaseline (writeBaselineEntries nowStr fs)).index
          (baselineKey g.filePath g.ruleID)).isNone))
      = H.filter (fun g => decide (¬ ∃ f ∈ fs,
          baselineKey f.filePath f.ruleID = baselineKey g.filePath g.ruleID))
      from List.filter_congr (fun g _ => hnoneB g)]
    rw [show (H.filter (fun g =>
        (lookupKey (mkBaseline (writeBaselineEntries nowStr fs)).index
          (baselineKey g.filePath g.ruleID)).isSome))
      = H.filter (fun g => decide (∃ f ∈ fs,
          baselineKey f.filePath f.ruleID = baselineKey g.filePath g.ruleID))
      from List.filter_congr (fun g _ => hsomeB g)]
    rw [hflat H]
  refine ⟨hgen G, ?_, ?_⟩
  · rw [hgen fs]
    show List.filter _ fs = []
    rw [List.filter_eq_nil_iff]
    intro f hf
    simp only [decide_eq_true_eq, not_not]
    exact ⟨f, hf, rfl⟩
  · rw [hgen fs]
    show List.filter _ fs = fs
    rw [List.filter_eq_self]
    intro f hf
    simp only [decide_eq_true_eq]
    exact ⟨f, hf, rfl⟩

/-- The two findings of the C7 witness run. -/
def c7Finding1 : Finding :=
  { ruleID := "AR001"
    severity := "error"
    message := "m1"
    filePath := "app.yaml" }

/-- A finding outside the written baseline in the C7 witness run. -/
def c7Finding2 : Finding :=
  { ruleID := "AR002"
    severity := "warn"
    message := "m2"
    filePath := "other.yaml" }

/-- Witness for C7: a baseline written on 2000-01-01 from the single finding
(AR001, app.yaml), re-run at instant 0 with a 1-day aging threshold over that
finding plus a fresh (AR002, other.yaml): exactly the written pair is
suppressed, the fresh finding is kept, one `BASELINE_AGED` diagnostic is
emitted, and the immediate re-run on the written findings alone keeps
nothing. -/
theorem claim_C7_witness :
    baselineFilter testParseTs testNow
        (some (mkBaseline (writeBaselineEntries "2000-01-01" [c7Finding1])))
        [c7Finding1, c7Finding2] 1
      = ([c7Finding2], [agedFinding c7Finding1 1], [c7Finding1])
    ∧ (baselineFilter testParseTs testNow
        (some (mkBaseline (writeBaselineEntries "2000-01-01" [c7Finding1])))
        [c7Finding1] 1).1 = []
    ∧ (baselineFilter testParseTs testNow
        (some (mkBaseline (writeBaselineEntries "2000-01-01" [c7Finding1])))
        [c7Finding1] 1).2.2 = [c7Finding1] := by
  have h := claim_C7_baseline_roundtrip testParseTs testNow "2000-01-01" 1
      [c7Finding1] [c7Finding1, c7Finding2]
  refine ⟨?_, h.2.1, h.2.2⟩
  rw [h.1]
  rfl


/-- C8: with all three kind-inclusion options disabled, the inclusion filter
keeps exactly the documents of the three supported kinds (Application,
ApplicationSet, AppProject) — the same behaviour as enabling all three — and
the whole run coincides with the all-enabled run; nothing is filtered out
beyond unsupported kinds and no error is raised on account of the flags. -/
theorem claim_C8_kind_filter_fallback (R : RunnerModel) (o : RunOptions)
    (manifests : List Manifest)
    (hA : o.includeApplications = false) (hS : o.includeApplicationSets = false)
    (hP : o.includeProjects = false) :
    includedManifests o manifests
      = manifests.filter (fun m => decide (m.kind = "Application"
          ∨ m.kind = "ApplicationSet" ∨ m.kind = "AppProject"))
    ∧ runModel R o manifests
      = runModel R { o with includeApplications := true
                            includeApplicationSets := true
                            includeProjects := true } manifests := by
  have hk : normalizeKinds o = (true, true, true) := by
    unfold normalizeKinds
    rw [hA, hS, hP]
    simp
  have hk2 : normalizeKinds { o with includeApplications := true
                                     includeApplicationSets := true
                                     includeProjects := true } = (true, true, true) := by
    unfold normalizeKinds
    simp
  have hinc2 : includedManifests o manifests
      = includedManifests { o with includeApplications := true
                                   includeApplicationSets := true
                                   includeProjects := true } manifests := by
    simp only [includedManifests, hk, hk2]
  have hrw : ∀ arrival, runModelWith R o manifests arrival
      = runModelWith R { o with includeApplications := true
                                includeApplicationSets := true
                                includeProjects := true } manifests arrival := by
    intro arrival
    unfold runModelWith
    rw [hinc2]
  refine ⟨?_, ?_⟩
  · simp only [includedManifests, hk]
    apply List.filter_congr
    intro m _
    unfold includeManifest
    by_cases h1 : m.kind = "Application"
    · simp [h1]
    · by_cases h2 : m.kind = "ApplicationSet"
      · simp [h1, h2]
      · by_cases h3 : m.kind = "AppProject"
        · simp [h1, h2, h3]
        · simp [h1, h2, h3]
  · unfold runModel
    rw [hinc2]
    cases stage2Blocks R (includedManifests { o with includeApplications := true, includeApplicationSets := true, includeProjects := true } manifests) with
    | error e => rfl
    | ok blocks => exact hrw blocks

/-- The four manifests of the C8 witness: one of each supported kind and one
unsupported kind. -/
def c8Manifests : List Manifest :=
  [ { filePath := "a.yaml", kind := "Application", name := "a" }
  , { filePath := "b.yaml", kind := "ApplicationSet", name := "b" }
  , { filePath := "c.yaml", kind := "AppProject", name := "c" }
  , { filePath := "d.yaml", kind := "ConfigMap", name := "d" } ]

/-- The runner of the C8 witness: empty configuration, no rules or plugins,
schema validation accepting every document. -/
def c8Runner : RunnerModel :=
  { cfg := {}
    schemaValidate := fun _ => .ok [] }

/-- Witness for C8: with a target set and all three kind flags left false,
the filter keeps exactly the Application/ApplicationSet/AppProject documents
(dropping the ConfigMap), and the run equals the all-enabled run. -/
theorem claim_C8_witness :
    includedManifests { target := "apps" } c8Manifests
      = [ { filePath := "a.yaml", kind := "Application", name := "a" }
        , { filePath := "b.yaml", kind := "ApplicationSet", name := "b" }
        , { filePath := "c.yaml", kind := "AppProject", name := "c" } ]
    ∧ runModel c8Runner { target := "apps" } c8Manifests
      = runModel c8Runner { target := "apps", includeApplications := true
                            includeApplicationSets := true
                            includeProjects := true } c8Manifests := by
  have h := claim_C8_kind_filter_fallback c8Runner { target := "apps" } c8Manifests
    rfl rfl rfl
  refine ⟨?_, h.2⟩
  rw [h.1]
  rfl


/-- Core `String.ltb` (behind the `<` Decidable instance) is well-founded
recursion and does not kernel-reduce; concrete comparator evaluations go
through the character list. -/
theorem decide_string_lt (a b : String) : decide (a < b) = decide (a.data < b.data) := by
  cases h : decide (a.data < b.data) with
  | true =>
    simp only [decide_eq_true_eq] at h
    exact decide_eq_true (String.lt_iff_toList_lt.mpr h)
  | false =>
    have h2 : ¬ a.data < b.data := of_decide_eq_false h
    exact decide_eq_false (fun hlt => h2 (String.lt_iff_toList_lt.mp hlt))

/-- Pointwise-equal selectors give equal `filterMap`s. -/
theorem filterMap_congr_fun {α β : Type} (f g : α → Option β) (h : ∀ a, f a = g a) :
    ∀ l : List α, l.filterMap f = l.filterMap g := by
  intro l
  induction l with
  | nil => rfl
  | cons a l ih => simp [List.filterMap_cons, h a, ih]

/-- The C5 configuration: a global override giving the uniqueness rule
`AR011` the unknown severity `critical`, so every `Resolve` of `AR011`
fails. -/
def c5Config : Config :=
  { rules := [("AR011", { severity := "critical" })] }

/-- Two Application manifests sharing the name `demo`. -/
def c5Manifests : List Manifest :=
  [ { filePath := "apps/a.yaml", kind := "Application", name := "demo", metadataLine := 2 }
  , { filePath := "apps/b.yaml", kind := "Application", name := "demo", metadataLine := 3 } ]

/-- The C5 runner: the bad configuration, no built-in rules or plugins,
schema validation accepting everything — the uniqueness rule is the only
finding source. -/
def c5Runner : RunnerModel :=
  { cfg := c5Config
    schemaValidate := fun _ => .ok [] }

/-- The duplicate-name finding the C5 run emits for one offending manifest,
built from the rule's *default* configuration. -/
def c5Finding (path : String) (ln : Int) : Finding :=
  { ruleID := "AR011"
    message := "Application name 'demo' is declared in multiple manifests"
    severity := "error"
    filePath := path
    line := ln
    resourceName := "demo"
    resourceKind := "Application"
    category := "consistency" }

/-- Counterexample to C5 as stated: resolving the uniqueness rule `AR011`
under this configuration fails with `unknown severity: critical`, yet the
run does not abort — it returns an `ok` report carrying both duplicate-name
findings at the rule's default severity.  `UniqueNameFindings` swallows the
resolution error and falls back to the rule's default configuration, so a
configuration-resolution failure inside the cross-document uniqueness rule
neither propagates nor empties the report. -/
theorem claim_C5_counterexample :
    Config.Resolve c5Config uniqueNameMeta "apps/a.yaml"
      = .error "unknown severity: critical"
    ∧ Config.Resolve c5Config uniqueNameMeta "apps/b.yaml"
      = .error "unknown severity: critical"
    ∧ runModel c5Runner { target := "apps" } c5Manifests
      = .ok { findings := [c5Finding "apps/a.yaml" 2, c5Finding "apps/b.yaml" 3]
              ruleIndex := buildRuleIndex c5Runner
              suppressed := [] } := by
  refine ⟨rfl, rfl, ?_⟩
  have hlt : findingLess (c5Finding "apps/b.yaml" 3) (c5Finding "apps/a.yaml" 2) = false := by
    simp only [findingLess, c5Finding]
    rw [if_neg (by decide : ¬ ("apps/b.yaml" : String) = "apps/a.yaml")]
    rw [decide_string_lt]
    decide
  have hsort : sortFindings [c5Finding "apps/a.yaml" 2, c5Finding "apps/b.yaml" 3]
      = [c5Finding "apps/a.yaml" 2, c5Finding "apps/b.yaml" 3] := by
    simp [sortFindings, insertStable, hlt]
  calc runModel c5Runner { target := "apps" } c5Manifests
      = .ok { findings := sortFindings
                ((sortFindings [c5Finding "apps/a.yaml" 2, c5Finding "apps/b.yaml" 3]
                  ++ []) ++ [])
              ruleIndex := buildRuleIndex c5Runner
              suppressed := [] } := rfl
    _ = .ok { findings := [c5Finding "apps/a.yaml" 2, c5Finding "apps/b.yaml" 3]
              ruleIndex := buildRuleIndex c5Runner
              suppressed := [] } := by
        rw [hsort]
        simp only [List.append_nil]
        rw [hsort]

/-- C5 (amended): a configuration-resolution failure in the per-document
stage does abort the run with that error and no partial report — an
applicable built-in rule whose resolution fails turns the accumulator into
that error, errors are absorbed by the rest of the rule loop, and an
erroneous tail aborts `Run` — but the cross-document uniqueness rule is the
exception: when resolving `AR011` fails for every path, it behaves exactly
as under the empty (default) configuration instead of failing. -/
theorem claim_C5_amended (R : RunnerModel) (o : RunOptions) (manifests : List Manifest)
    (arrival : List (List Finding)) (e : String)
    (htgt : ¬ o.target = "")
    (htail : tailFindings R (includedManifests o manifests) = .error e) :
    runModelWith R o manifests arrival = .error e
    ∧ (∀ (cfg : Config) (ctx : RuleContext) (m : Manifest) (fs : List Finding)
          (rl : Rule) (err : String),
        (rl.applies = none ∨ ∃ ap, rl.applies = some ap ∧ ap m = true) →
        cfg.Resolve rl.metadata m.filePath = .error err →
        ruleStep cfg ctx m (.ok fs) rl = .error err)
    ∧ (∀ (cfg : Config) (ctx : RuleContext) (m : Manifest) (rules : List Rule)
          (err : String),
        rules.foldl (ruleStep cfg ctx m) (.error err) = .error err)
    ∧ (∀ ctx : RuleContext,
        (∀ fp : String, ∃ err, ctx.config.Resolve uniqueNameMeta fp = .error err) →
        uniqueNameFindings ctx
          = uniqueNameFindings { config := {}, manifests := ctx.manifests }) := by
  refine ⟨?_, ?_, ?_, ?_⟩
  · simp only [runModelWith]
    rw [if_neg htgt, htail]
  · intro cfg ctx m fs rl err happ hres
    rcases happ with h | ⟨ap, h, hap⟩
    · simp [ruleStep, h, hres]
    · simp [ruleStep, h, hap, hres]
  · intro cfg ctx m rules err
    induction rules with
    | nil => rfl
    | cons rl rules ih =>
      rw [List.foldl_cons]
      have hstep : ruleStep cfg ctx m (.error err) rl = .error err := rfl
      rw [hstep, ih]
  · intro ctx h
    simp only [uniqueNameFindings]
    congr 1
    funext acc ng
    by_cases hg : ng.2.length ≤ 1
    · simp [hg]
    · rw [if_neg hg, if_neg hg]
      congr 1
      apply filterMap_congr_fun
      intro m
      obtain ⟨err, herr⟩ := h m.filePath
      simp only [herr]
      simp only [Config.Resolve, lookupKey, resolveOverrides]

/-- The strict-path runner of the C5 witness: one applicable built-in rule
`AR001` (default severity `warn`) whose configured severity `critical` fails
to parse. -/
def c5StrictRunner : RunnerModel :=
  { cfg := { rules := [("AR001", { severity := "critical" })] }
    rules := [ { metadata := { ID := "AR001", defaultSeverity := "warn", enabled := true }
                 check := fun _ _ _ => [] } ]
    schemaValidate := fun _ => .ok [] }

/-- Witness for the amended C5: with the bad `AR001` severity, the tail of
the run is the resolution error and `Run` returns exactly that error. -/
theorem claim_C5_witness :
    ¬ ({ target := "apps" } : RunOptions).target = ""
    ∧ tailFindings c5StrictRunner
        (includedManifests { target := "apps" } c5Manifests)
        = .error "unknown severity: critical"
    ∧ runModelWith c5StrictRunner { target := "apps" } c5Manifests []
        = .error "unknown severity: critical" := by
  have h := claim_C5_amended c5StrictRunner { target := "apps" } c5Manifests []
    "unknown severity: critical" (by simp) rfl
  exact ⟨by simp, rfl, h.1⟩


/-- C1: determinism and ordering of `Runner.Run`.  The worker pool only
affects the order in which the per-manifest stage-2 blocks reach the shared
findings slice, so scheduling is modelled as an arbitrary permutation
`arrival` of the canonical blocks: for any two arrival orders the run
returns the same report, the canonical run equals every scheduled run, and
every produced report's findings are sorted ascending by the key
(file path, line, rule ID, message).  The key-injectivity hypothesis — two
collected findings with identical (file, line, rule, message) are the same
finding — is what `sort.SliceStable` needs for the output to be
arrival-independent; it holds on the real pipeline because distinct
documents occupy distinct source lines of their file, so their findings
never collide on (file path, line). -/
theorem claim_C1_run_deterministic_and_sorted (R : RunnerModel) (o : RunOptions)
    (manifests : List Manifest) (blocks a1 a2 : List (List Finding))
    (hblocks : stage2Blocks R (includedManifests o manifests) = .ok blocks)
    (ha1 : a1.Perm blocks) (ha2 : a2.Perm blocks)
    (hinj : ∀ tl, tailFindings R (includedManifests o manifests) = .ok tl →
        keyInjOn (blocks.flatten ++ tl)) :
    runModelWith R o manifests a1 = runModelWith R o manifests a2
    ∧ runModel R o manifests = runModelWith R o manifests a1
    ∧ (∀ rep : Report, runModelWith R o manifests a1 = .ok rep →
        rep.findings.Pairwise (fun x y => sortKey x ≤ sortKey y)) := by
  have hdet : ∀ b1 b2 : List (List Finding), b1.Perm blocks → b2.Perm blocks →
      runModelWith R o manifests b1 = runModelWith R o manifests b2 := by
    intro b1 b2 h1 h2
    simp only [runModelWith]
    by_cases htgt : o.target = ""
    · rw [if_pos htgt, if_pos htgt]
    · rw [if_neg htgt, if_neg htgt]
      cases htl : tailFindings R (includedManifests o manifests) with
      | error e => simp [htl]
      | ok tl =>
        have hperm : (b1.flatten ++ tl).Perm (b2.flatten ++ tl) :=
          ((flatten_perm_of_perm h1).trans (flatten_perm_of_perm h2).symm).append_right tl
        have hinj1 : keyInjOn (b1.flatten ++ tl) :=
          keyInjOn_of_perm ((flatten_perm_of_perm h1).append_right tl) (hinj tl htl)
        have hsorteq : sortFindings (b1.flatten ++ tl) = sortFindings (b2.flatten ++ tl) :=
          sortFindings_eq_of_perm hperm hinj1
        simp only [htl]
        rw [hsorteq]
  have hcanon : runModel R o manifests = runModelWith R o manifests blocks := by
    unfold runModel
    rw [hblocks]
  refine ⟨hdet a1 a2 ha1 ha2, hcanon.trans (hdet blocks a1 (List.Perm.refl _) ha1), ?_⟩
  intro rep hrep
  simp only [runModelWith] at hrep
  by_cases htgt : o.target = ""
  · rw [if_pos htgt] at hrep
    cases hrep
  · rw [if_neg htgt] at hrep
    cases htl : tailFindings R (includedManifests o manifests) with
    | error e =>
      rw [htl] at hrep
      cases hrep
    | ok tl =>
      simp only [htl] at hrep
      have hfields := Except.ok.inj hrep
      rw [← hfields]
      exact sortFindings_sorted _

/-- The two manifests of the C1 witness: distinct names on distinct files. -/
def c1Manifests : List Manifest :=
  [ { filePath := "apps/a.yaml", kind := "Application", name := "x", metadataLine := 2 }
  , { filePath := "apps/b.yaml", kind := "Application", name := "y", metadataLine := 2 } ]

/-- The C1 witness runner: schema validation reports one finding per
document, nothing else runs. -/
def c1Runner : RunnerModel :=
  { cfg := {}
    schemaValidate := fun m => .ok
      [ { ruleID := "SCHEMA", message := "invalid", severity := "error"
          filePath := m.filePath, line := 1 } ] }

/-- The per-document schema finding of the C1 witness. -/
def c1Finding (path : String) : Finding :=
  { ruleID := "SCHEMA", message := "invalid", severity := "error"
    filePath := path, line := 1 }

/-- Witness for C1: the two stage-2 blocks in canonical and in swapped
arrival order give the same report, the canonical run equals the scheduled
one, and the report is sorted. -/
theorem claim_C1_witness :
    runModelWith c1Runner { target := "apps" } c1Manifests
        [[c1Finding "apps/a.yaml"], [c1Finding "apps/b.yaml"]]
      = runModelWith c1Runner { target := "apps" } c1Manifests
        [[c1Finding "apps/b.yaml"], [c1Finding "apps/a.yaml"]]
    ∧ runModel c1Runner { target := "apps" } c1Manifests
      = runModelWith c1Runner { target := "apps" } c1Manifests
        [[c1Finding "apps/a.yaml"], [c1Finding "apps/b.yaml"]]
    ∧ ∀ rep : Report,
        runModelWith c1Runner { target := "apps" } c1Manifests
          [[c1Finding "apps/a.yaml"], [c1Finding "apps/b.yaml"]] = .ok rep →
        rep.findings.Pairwise (fun x y => sortKey x ≤ sortKey y) := by
  have h := claim_C1_run_deterministic_and_sorted c1Runner { target := "apps" }
      c1Manifests
      [[c1Finding "apps/a.yaml"], [c1Finding "apps/b.yaml"]]
      [[c1Finding "apps/a.yaml"], [c1Finding "apps/b.yaml"]]
      [[c1Finding "apps/b.yaml"], [c1Finding "apps/a.yaml"]]
      rfl (List.Perm.refl _) (List.Perm.swap _ _ _)
      (by
        intro tl htl
        have h1 : (Except.ok [] : Except String (List Finding)) = .ok tl := htl
        have h0 : tl = [] := (Except.ok.inj h1).symm
        subst h0
        intro a ha b hb hk
        have hfp := (sortKey_eq_fields hk).1
        fin_cases ha <;> fin_cases hb <;> first
          | rfl
          | exact absurd hfp (by decide))
  exact h


end ArgocdLint


